import Mathlib

/-!
Shallow embedding of the archetype-based ECS storage engine
(`pkg/ecs/ecs.go` of Salvadego/ECS) and verification of its specification.

Modelling conventions:
* Go `uint64` values are `Nat`s; results of shifts are truncated with
  `% 2 ^ 64` exactly where Go truncates.
* Go maps are association lists (`List (key × value)`); map assignment
  replaces the binding of an existing key and otherwise appends, and map
  lookup returns the first binding.  Where Go iterates over a map whose
  iteration order is unobservable in any claim, the model fixes the
  insertion order.
* Go pointers to `Archetype` are positions in the world's append-only
  `archetypes` list; mutation through a pointer is `List.set` at that
  position.
* A Go runtime panic (out-of-bounds slice index) is modelled by `Option`:
  `none` means the original program aborts.
* `Component` is the Go interface: a value paired with the `ComponentID`
  returned by its `ID()` method.  Distinct dynamic types are distinguished
  only through their IDs, which is how every claim refers to them.
-/

namespace ECS

/-! Go `ComponentID`, `EntityID` (both `uint64`) and component payloads are
all modelled as `Nat`. -/

/-- A value of the Go `Component` interface: `cid` is what `ID()` returns,
`val` is the payload of the concrete struct. -/
structure Component where
  cid : Nat
  val : Nat
deriving DecidableEq, Repr

/-- Go `BitSet [2]ComponentID`: two 64-bit words, 128 bits total. -/
structure BitSet where
  w0 : Nat
  w1 : Nat
deriving DecidableEq, Repr

namespace BitSet

def empty : BitSet := ⟨0, 0⟩

/-- Go `BitSet.Set`: `(*b)[word] |= 1 << bit` with `word = index/64`.
When `index / 64 ≥ 2` the Go code indexes past the end of the array and
panics; that abort is `none`. -/
def set? (b : BitSet) (index : Nat) : Option BitSet :=
  let word := index / 64
  let bit := index % 64
  if word = 0 then some { b with w0 := b.w0 ||| (1 <<< bit) }
  else if word = 1 then some { b with w1 := b.w1 ||| (1 <<< bit) }
  else none

/-- Go `BitSet.Has`: bounds-checked, out-of-range words read as unset. -/
def has (b : BitSet) (index : Nat) : Bool :=
  let word := index / 64
  let bit := index % 64
  if 2 ≤ word then false
  else if word = 0 then b.w0.testBit bit
  else b.w1.testBit bit

/-- Go `BitSet.Equals`. -/
def equals (b other : BitSet) : Bool :=
  b.w0 == other.w0 && b.w1 == other.w1

/-- Go `BitSet.ContainsAll`. -/
def containsAll (b other : BitSet) : Bool :=
  (b.w0 &&& other.w0) == other.w0 && (b.w1 &&& other.w1) == other.w1

/-- Go `BitSet.Intersects`. -/
def intersects (b other : BitSet) : Bool :=
  (b.w0 &&& other.w0) != 0 || (b.w1 &&& other.w1) != 0

/-- Go `BitSet.Hash`: `uint64(b[0]) ^ (uint64(b[1]) << 32)`, the shift
truncating at 64 bits. -/
def hash (b : BitSet) : Nat :=
  b.w0 ^^^ ((b.w1 <<< 32) % 2 ^ 64)

/-- Go `BitSet.Indices`: ascending positions of the set bits, word 0 first. -/
def indices (b : BitSet) : List Nat :=
  ((List.range 64).filter (fun bit => b.w0.testBit bit)) ++
    ((List.range 64).filter (fun bit => b.w1.testBit bit)).map (fun bit => 64 + bit)

end BitSet

/-- Lookup in a Go map rendered as an association list. -/
def assocFind {α : Type} (m : List (Nat × α)) (k : Nat) : Option α :=
  (m.find? (fun p => p.1 == k)).map (fun p => p.2)

/-- Assignment `m[k] = v` in a Go map rendered as an association list:
replace the binding if the key is present, otherwise append it. -/
def assocInsert {α : Type} (m : List (Nat × α)) (k : Nat) (v : α) : List (Nat × α) :=
  if m.any (fun p => p.1 == k) then
    m.map (fun p => if p.1 == k then (k, v) else p)
  else m ++ [(k, v)]

/-- Go `ComponentSlot`: one column of one component type. -/
structure ComponentSlot where
  id : Nat
  data : List Component
deriving DecidableEq, Repr

/-- Go `Archetype`.  The Go `compIndex` map sends a `ComponentID` to the
position of its slot in `components`; since the two are built together and
the slot ids are distinct map keys, the model recovers it by searching
`components` for the slot with the given id (`findSlot`). -/
structure Archetype where
  signature : BitSet
  entities : List Nat
  components : List ComponentSlot
  entityIndex : List (Nat × Nat)
deriving DecidableEq, Repr

namespace Archetype

def findSlot (a : Archetype) (id : Nat) : Option ComponentSlot :=
  a.components.find? (fun s => s.id == id)

/-- Go `Archetype.GetComponentData`. -/
def getComponentData (a : Archetype) (id : Nat) : Option (List Component) :=
  (a.findSlot id).map (fun s => s.data)

/-- Go `Archetype.AddEntity`: append the entity, record its row in
`entityIndex`, and append the supplied value to every column whose id the
component map covers (Go iterates the map and appends to the columns listed
in `compIndex`; per column this is the match below, the map keys being
distinct). -/
def addEntity (a : Archetype) (entityID : Nat) (componentMap : List Component) :
    Archetype × Nat :=
  let index := a.entities.length
  ({ a with
      entities := a.entities ++ [entityID]
      entityIndex := assocInsert a.entityIndex entityID index
      components := a.components.map (fun slot =>
        match componentMap.find? (fun c => c.cid == slot.id) with
        | some c => { slot with data := slot.data ++ [c] }
        | none => slot) },
    index)

end Archetype

/-! Go `System` values are opaque callbacks; the model names them by `Nat`
tokens and takes their behaviour as a parameter of `World.update`. -/

structure Filter where
  incl : BitSet
  excl : BitSet
deriving DecidableEq, Repr

/-- Go `queryCache`: the per-key cache record (its `mu` is concurrency-only). -/
structure QueryCacheEntry where
  cache : List (Nat × List (List Component))
  filter : Filter
deriving DecidableEq, Repr

/-- Go `World` (the `mu` lock is concurrency-only and has no sequential
semantics). -/
structure World where
  archetypes : List Archetype
  archetypeMap : List (Nat × Nat)
  archetypesByComponent : List (Nat × List Nat)
  entityData : List (Nat × (Nat × Nat))
  nextEntityID : Nat
  systems : List Nat
  queryCache : List (Nat × QueryCacheEntry)
deriving DecidableEq, Repr

/-- Go `NewWorld`. -/
def newWorld : World :=
  { archetypes := []
    archetypeMap := []
    archetypesByComponent := []
    entityData := []
    nextEntityID := 0
    systems := []
    queryCache := [] }

namespace World

/-- Go `World.registerArchetype`.  Note `w.archetypeMap[hash] = archetype`
overwrites any previous archetype registered under the same hash. -/
def registerArchetype (w : World) (archetype : Archetype) : World :=
  let ai := w.archetypes.length
  { w with
    archetypes := w.archetypes ++ [archetype]
    archetypeMap := assocInsert w.archetypeMap archetype.signature.hash ai
    archetypesByComponent := archetype.components.foldl (fun m slot =>
      assocInsert m slot.id ((assocFind m slot.id).getD [] ++ [ai]))
      w.archetypesByComponent }

end World

/-- The archetype the create branch of Go `World.getOrCreateArchetype`
builds: fresh columns in component-map order (the pooled buffers are
truncated to length 0, so a fresh column is empty either way). -/
def mkArchetype (signature : BitSet) (componentMap : List Component) : Archetype :=
  { signature := signature
    entities := []
    components := componentMap.map (fun c => { id := c.cid, data := [] })
    entityIndex := [] }

namespace World

/-- The create branch of Go `World.getOrCreateArchetype`. -/
def createArchetype (w : World) (signature : BitSet) (componentMap : List Component) :
    World × Nat :=
  (w.registerArchetype (mkArchetype signature componentMap), w.archetypes.length)

/-- Go `World.getOrCreateArchetype`: reuse the archetype found by hash only
when its signature fully equals the request, else create a new one. -/
def getOrCreateArchetype (w : World) (signature : BitSet) (componentMap : List Component) :
    World × Nat :=
  match (assocFind w.archetypeMap signature.hash).bind
      (fun ai => (w.archetypes[ai]?).map (fun a => (ai, a))) with
  | some (ai, a) =>
    if a.signature.equals signature then (w, ai)
    else w.createArchetype signature componentMap
  | none => w.createArchetype signature componentMap

end World

/-- The signature loop of Go `World.CreateEntity`: `signature.Set(comp.ID())`
for each supplied component in order (`none` once a `Set` panics). -/
def setAll (sig : BitSet) : List Nat → Option BitSet
  | [] => some sig
  | id :: rest =>
    match sig.set? id with
    | some sig' => setAll sig' rest
    | none => none

def buildSignature (components : List Component) : Option BitSet :=
  setAll BitSet.empty (components.map (fun c => c.cid))

/-- One Go map assignment `componentMap[id] = comp`. -/
def insertComponent (m : List Component) (c : Component) : List Component :=
  if m.any (fun x => x.cid == c.cid) then
    m.map (fun x => if x.cid == c.cid then c else x)
  else m ++ [c]

/-- The `componentMap` built by Go `World.CreateEntity`: one entry per
distinct id, a later duplicate overwriting the earlier value. -/
def buildComponentMap (components : List Component) : List Component :=
  components.foldl insertComponent []

namespace World

/-- Go `World.CreateEntity`. -/
def createEntity (w : World) (components : List Component) : Option (World × Nat) :=
  match buildSignature components with
  | none => none
  | some signature =>
    let componentMap := buildComponentMap components
    let entityID := w.nextEntityID
    let w1 := { w with nextEntityID := entityID + 1 }
    let wai := w1.getOrCreateArchetype signature componentMap
    match wai.1.archetypes[wai.2]? with
    | none => none
    | some a =>
      let ar := a.addEntity entityID componentMap
      some ({ wai.1 with
                archetypes := wai.1.archetypes.set wai.2 ar.1
                entityData := assocInsert wai.1.entityData entityID (wai.2, ar.2) },
            entityID)

/-- Go `World.AddSystems`: the capacity dance only reallocates, the visible
effect is appending in argument order. -/
def addSystems (w : World) (systems : List Nat) : World :=
  { w with systems := w.systems ++ systems }

/-- Go `World.Update`: snapshot the systems slice, then call
`system.Update(dt)` on each in order.  `step` is the behaviour of the
callbacks (they may mutate the world, including registering more systems);
the returned trace lists the invocations this call performs, in order. -/
def update (w : World) (step : Nat → Float → World → World) (dt : Float) :
    World × List (Nat × Float) :=
  w.systems.foldl (fun acc s => (step s dt acc.1, acc.2 ++ [(s, dt)])) (w, [])

end World

/-- Go `GetComponent[T]`: `cid` is `zero.ID()` for the type argument `T` and
`zeroVal` the payload of `T`'s zero value, returned on every lookup miss. -/
def getComponent (w : World) (entity : Nat) (cid : Nat) (zeroVal : Nat) : Nat :=
  match assocFind w.entityData entity with
  | none => zeroVal
  | some loc =>
    match w.archetypes[loc.1]? with
    | none => zeroVal
    | some a =>
      match a.findSlot cid with
      | some slot =>
        match slot.data[loc.2]? with
        | some c => c.val
        | none => zeroVal
      | none => zeroVal

/-- Go `NewFilter`. -/
def newFilter (ids : List Nat) : Option Filter :=
  (setAll BitSet.empty ids).map (fun incl => { incl := incl, excl := BitSet.empty })

/-- Go `Filter.Without`. -/
def Filter.without (f : Filter) (ids : List Nat) : Option Filter :=
  (setAll f.excl ids).map (fun excl => { f with excl := excl })

def Filter.includeMatch (f : Filter) (sig : BitSet) : Bool :=
  sig.containsAll f.incl

def Filter.excludeMatch (f : Filter) (sig : BitSet) : Bool :=
  f.excl.intersects sig

/-- The `componentArrays` setup of `QueryIterator.Next`: the column of every
included id, `none` when some id has no column (`allPresent = false`). -/
def collectData (a : Archetype) : List Nat → Option (List (List Component))
  | [] => some []
  | id :: rest =>
    match a.getComponentData id, collectData a rest with
    | some d, some ds => some (d :: ds)
    | _, _ => none

/-- One row of `QueryIterator.Next`: the entry of every array at the row,
`none` when some array is too short (`valid = false`, row skipped). -/
def rowAt (arrays : List (List Component)) (r : Nat) : Option (List Component) :=
  match arrays with
  | [] => some []
  | arr :: rest =>
    match arr[r]?, rowAt rest r with
    | some c, some cs => some (c :: cs)
    | _, _ => none

/-- The rows `QueryIterator.Next` yields for one archetype: none when a
column is missing or the archetype has no entities, else the valid rows for
row indices below the first column's length. -/
def Archetype.iterRows (a : Archetype) (includeIDs : List Nat) :
    List (List Component) :=
  match collectData a includeIDs with
  | none => []
  | some arrays =>
    if a.entities.length = 0 then []
    else
      match arrays with
      | [] => []
      | arr0 :: _ => (List.range arr0.length).filterMap (fun r => rowAt arrays r)

/-- The candidate scan of Go `Filter.Iterator`: walk the include ids, abort
to an empty iterator when one has no archetype list, else keep the first
list of minimal length. -/
def selectCandidatesGo (w : World) : List Nat → Option (List Nat) → Option (List Nat)
  | [], best => best
  | id :: rest, best =>
    match assocFind w.archetypesByComponent id with
    | none => none
    | some archetypes =>
      match best with
      | none => selectCandidatesGo w rest (some archetypes)
      | some b =>
        selectCandidatesGo w rest
          (some (if archetypes.length < b.length then archetypes else b))

def selectCandidates (w : World) (includeIDs : List Nat) : Option (List Nat) :=
  selectCandidatesGo w includeIDs none

/-- Go `Filter.Iterator`: the matching archetypes and the include ids the
returned `QueryIterator` holds. -/
def Filter.iterator (f : Filter) (w : World) : List Archetype × List Nat :=
  let includeIDs := f.incl.indices
  if includeIDs.isEmpty then ([], includeIDs)
  else
    match selectCandidates w includeIDs with
    | none => ([], includeIDs)
    | some candidates =>
      ((candidates.filterMap (fun ai => w.archetypes[ai]?)).filter
          (fun a => f.includeMatch a.signature && !(f.excludeMatch a.signature)),
        includeIDs)

/-- Draining a `QueryIterator` with `Next`/`Row`: the rows of each matching
archetype in order. -/
def drainIterator (it : List Archetype × List Nat) : List (List Component) :=
  it.1.flatMap (fun a => a.iterRows it.2)

/-- The rows Go `Filter.Query` computes on a cache miss. -/
def Filter.queryRows (f : Filter) (w : World) : List (List Component) :=
  drainIterator (f.iterator w)

/-- Go `Filter.Query`'s cache key: `include.Hash() ^ (exclude.Hash() << 1)`. -/
def Filter.cacheKey (f : Filter) : Nat :=
  f.incl.hash ^^^ ((f.excl.hash <<< 1) % 2 ^ 64)

/-- Go `Filter.Query`: serve a cached row set when one is stored under the
cache key, else drain a fresh iterator and store the result. -/
def Filter.query (f : Filter) (w : World) : World × List (List Component) :=
  let key := f.cacheKey
  match (assocFind w.queryCache key).bind (fun entry => assocFind entry.cache key) with
  | some result => (w, result)
  | none =>
    let result := f.queryRows w
    let entry := (assocFind w.queryCache key).getD { cache := [], filter := f }
    let entry' := { entry with cache := assocInsert entry.cache key result }
    ({ w with queryCache := assocInsert w.queryCache key entry' }, result)

/-- Go `World.ClearQueryCache`. -/
def World.clearQueryCache (w : World) : World :=
  { w with queryCache := [] }

/-- The operations of the engine's sequential client interface that change
the world. -/
inductive Op where
  | create (components : List Component)
  | runQuery (f : Filter)
  | clearCache
deriving DecidableEq, Repr

def applyOp (w : World) : Op → Option World
  | .create cs => (w.createEntity cs).map (fun p => p.1)
  | .runQuery f => some (f.query w).1
  | .clearCache => some w.clearQueryCache

/-- A world reachable from `NewWorld` by a sequence of operations. -/
def runOps (ops : List Op) : Option World :=
  ops.foldl (fun ow op => ow.bind (fun w => applyOp w op)) (some newWorld)

/-- The argument lists of the `CreateEntity` calls of a run, in order;
entity `e` was created by the `e`-th one. -/
def createdCalls (ops : List Op) : List (List Component) :=
  ops.filterMap (fun op =>
    match op with
    | .create cs => some cs
    | _ => none)

/-! ### Spec-side query semantics: which entities a filter matches -/

/-- The stored component value of archetype `a` at column `id`, row `r`
(defaulting when the column or row is absent). -/
def cellAt (a : Archetype) (id r : Nat) : Component :=
  match a.findSlot id with
  | some slot => (slot.data[r]?).getD ⟨id, 0⟩
  | none => ⟨id, 0⟩

/-- The archetype stored at index `ai` (defaulting when absent). -/
def archAt (w : World) (ai : Nat) : Archetype :=
  (w.archetypes[ai]?).getD ⟨⟨0, 0⟩, [], [], []⟩

/-- The indices of the archetypes whose signature matches the filter. -/
def matchingArchIdx (w : World) (f : Filter) : List Nat :=
  (List.range w.archetypes.length).filter (fun ai =>
    match w.archetypes[ai]? with
    | some a => f.includeMatch a.signature && !(f.excludeMatch a.signature)
    | none => false)

/-- The archetype and row of an entity, resolved through `entityData`. -/
def World.entityLoc (w : World) (e : Nat) : Option (Archetype × Nat) :=
  (assocFind w.entityData e).bind (fun p => (w.archetypes[p.1]?).map (fun a => (a, p.2)))

/-- Whether a filter matches an entity: the signature `S` of its archetype
satisfies `S.ContainsAll(include)` and not `exclude.Intersects(S)`; a
filter with an empty include-set matches nothing by design. -/
def World.entityMatches (w : World) (f : Filter) (e : Nat) : Bool :=
  !f.incl.indices.isEmpty &&
    (match w.entityLoc e with
     | some p => f.includeMatch p.1.signature && !(f.excludeMatch p.1.signature)
     | none => false)

/-- The row a query over `f` yields for entity `e`: its stored component
values at the include ids, in ascending id order. -/
def World.entityTuple (w : World) (f : Filter) (e : Nat) : List Component :=
  f.incl.indices.map (fun id =>
    match w.entityLoc e with
    | some p => cellAt p.1 id p.2
    | none => ⟨id, 0⟩)

/-- One row per live matching entity, in entity-id order. -/
def World.liveResult (w : World) (f : Filter) : List (List Component) :=
  ((List.range w.nextEntityID).filter (fun e => w.entityMatches f e)).map
    (fun e => w.entityTuple f e)

/-- `NewFilter(1)`: include-set `{1}`, empty exclude-set. -/
def filterA : Filter := ⟨⟨2, 0⟩, ⟨0, 0⟩⟩

/-- `NewFilter().Without(0)`: empty include-set, exclude-set `{0}`. -/
def filterB : Filter := ⟨⟨0, 0⟩, ⟨1, 0⟩⟩

/-- The world after one `CreateEntity(component 1 ↦ 5)` call, used as a
concrete cache-miss scenario. -/
def wMiss : World := (runOps [Op.create [⟨1, 5⟩]]).getD newWorld

/-- The world after create, query, create: its query cache holds a stale
entry for `filterA`, the scenario `ClearQueryCache` exists for. -/
def wStale : World :=
  (runOps [Op.create [⟨1, 5⟩], Op.runQuery filterA, Op.create [⟨1, 6⟩]]).getD newWorld

/-! ### Reachable-world invariant (definitions) -/

/-- Whether the archetype at index `ai` owns a column for component `id`. -/
def archHasComp (w : World) (ai : Nat) (id : Nat) : Bool :=
  match w.archetypes[ai]? with
  | some a => a.components.any (fun s => s.id == id)
  | none => false

/-- The component map `CreateEntity` built for entity `e` of a run whose
`CreateEntity` calls were `calls`. -/
def suppliedMap (calls : List (List Component)) (e : Nat) : List Component :=
  buildComponentMap ((calls[e]?).getD [])

/-- The storage invariant a world built by `runOps` maintains, relating it
to the argument lists `calls` of its `CreateEntity` calls; `WCore` is the
part that does not mention the entity-id counter. -/
structure WCore (calls : List (List Component)) (w : World) : Prop where
  ed_some : ∀ e : Nat, e < calls.length → (assocFind w.entityData e).isSome
  ed_none : ∀ e : Nat, calls.length ≤ e → assocFind w.entityData e = none
  ed_loc : ∀ (e ai r : Nat), assocFind w.entityData e = some (ai, r) →
    ∃ a : Archetype, w.archetypes[ai]? = some a ∧ a.entities[r]? = some e
  row_owner : ∀ (ai : Nat) (a : Archetype) (r e : Nat), w.archetypes[ai]? = some a →
    a.entities[r]? = some e → assocFind w.entityData e = some (ai, r)
  col_len : ∀ (ai : Nat) (a : Archetype), w.archetypes[ai]? = some a →
    ∀ slot ∈ a.components, slot.data.length = a.entities.length
  cell_val : ∀ (ai : Nat) (a : Archetype), w.archetypes[ai]? = some a →
    ∀ slot ∈ a.components, ∀ (r e : Nat), a.entities[r]? = some e →
      slot.data[r]? = (suppliedMap calls e).find? (fun c => c.cid == slot.id)
  row_sig : ∀ (ai : Nat) (a : Archetype) (r e : Nat), w.archetypes[ai]? = some a →
    a.entities[r]? = some e → buildSignature ((calls[e]?).getD []) = some a.signature
  sig_slots : ∀ (ai : Nat) (a : Archetype), w.archetypes[ai]? = some a →
    ∀ c : Nat, a.signature.has c = true ↔ ∃ s ∈ a.components, s.id = c
  slots_nodup : ∀ (ai : Nat) (a : Archetype), w.archetypes[ai]? = some a →
    (a.components.map (fun s => s.id)).Nodup
  bycomp_some : ∀ (id : Nat) (l : List Nat), assocFind w.archetypesByComponent id = some l →
    l = (List.range w.archetypes.length).filter (fun ai => archHasComp w ai id)
  bycomp_none : ∀ id : Nat, assocFind w.archetypesByComponent id = none →
    (List.range w.archetypes.length).filter (fun ai => archHasComp w ai id) = []

/-- Full invariant: the core plus the value of the entity-id counter. -/
structure WInv (calls : List (List Component)) (w : World)
    extends WCore calls w : Prop where
  next_eq : w.nextEntityID = calls.length

/-! ### Association-list map lemmas -/

theorem assocFind_nil {α : Type} (k : Nat) : assocFind ([] : List (Nat × α)) k = none :=
  rfl

theorem assocFind_cons {α : Type} (p : Nat × α) (m : List (Nat × α)) (k : Nat) :
    assocFind (p :: m) k = if p.1 = k then some p.2 else assocFind m k := by
  by_cases h : p.1 = k
  · rw [assocFind, List.find?_cons_of_pos _ (by simpa using h)]
    simp [h]
  · rw [assocFind, List.find?_cons_of_neg _ (by simpa using h), if_neg h]
    rfl

theorem assocFind_map_replace_self {α : Type} (k : Nat) (v : α) :
    ∀ m : List (Nat × α), m.any (fun p => p.1 == k) = true →
      assocFind (m.map (fun p => if p.1 == k then (k, v) else p)) k = some v := by
  intro m
  induction m with
  | nil => intro h; simp at h
  | cons p rest ih =>
    intro h
    by_cases hp : p.1 = k
    · rw [List.map_cons, if_pos (show (p.1 == k) = true by simpa using hp), assocFind_cons]
      simp
    · rw [List.map_cons, if_neg (show ¬((p.1 == k) = true) by simpa using hp),
        assocFind_cons, if_neg hp]
      exact ih (by simpa [hp] using h)

theorem assocFind_map_replace_ne {α : Type} (k k' : Nat) (v : α) (h : k ≠ k') :
    ∀ m : List (Nat × α),
      assocFind (m.map (fun p => if p.1 == k then (k, v) else p)) k' = assocFind m k' := by
  intro m
  induction m with
  | nil => rfl
  | cons p rest ih =>
    by_cases hp : p.1 = k
    · rw [List.map_cons, if_pos (show (p.1 == k) = true by simpa using hp),
        assocFind_cons, assocFind_cons, ih,
        if_neg (show ¬((k, v).1 = k') from h), if_neg (fun hx : p.1 = k' => h (hp ▸ hx))]
    · rw [List.map_cons, if_neg (show ¬((p.1 == k) = true) by simpa using hp),
        assocFind_cons, assocFind_cons, ih]

theorem assocFind_append_single_self {α : Type} (k : Nat) (v : α) :
    ∀ m : List (Nat × α), m.any (fun p => p.1 == k) = false →
      assocFind (m ++ [(k, v)]) k = some v := by
  intro m
  induction m with
  | nil => simp [assocFind_cons]
  | cons p rest ih =>
    intro h
    simp only [List.any_cons, Bool.or_eq_false_iff] at h
    rw [List.cons_append, assocFind_cons, if_neg (by simpa using h.1)]
    exact ih h.2

theorem assocFind_append_single_ne {α : Type} (k k' : Nat) (v : α) (h : k ≠ k') :
    ∀ m : List (Nat × α), assocFind (m ++ [(k, v)]) k' = assocFind m k' := by
  intro m
  induction m with
  | nil => simp [assocFind_cons, h, assocFind_nil]
  | cons p rest ih =>
    rw [List.cons_append, assocFind_cons, assocFind_cons, ih]

theorem assocFind_insert_self {α : Type} (m : List (Nat × α)) (k : Nat) (v : α) :
    assocFind (assocInsert m k v) k = some v := by
  unfold assocInsert
  by_cases h : m.any (fun p => p.1 == k)
  · rw [if_pos h]
    exact assocFind_map_replace_self k v m h
  · rw [if_neg h]
    exact assocFind_append_single_self k v m (Bool.eq_false_iff.mpr h)

theorem assocFind_insert_ne {α : Type} (m : List (Nat × α)) (k k' : Nat) (v : α)
    (h : k ≠ k') : assocFind (assocInsert m k v) k' = assocFind m k' := by
  unfold assocInsert
  by_cases hm : m.any (fun p => p.1 == k)
  · rw [if_pos hm]
    exact assocFind_map_replace_ne k k' v h m
  · rw [if_neg hm]
    exact assocFind_append_single_ne k k' v h m

/-! ### `BitSet.Set` / `BitSet.Has` (claim C5) -/

theorem BitSet.set?_eq (b : BitSet) (i : Nat) :
    b.set? i =
      if i < 64 then some ⟨b.w0 ||| 1 <<< (i % 64), b.w1⟩
      else if i < 128 then some ⟨b.w0, b.w1 ||| 1 <<< (i % 64)⟩
      else none := by
  simp only [BitSet.set?]
  rcases Nat.lt_or_ge i 64 with h | h
  · rw [if_pos (show i / 64 = 0 by omega), if_pos h]
  · rcases Nat.lt_or_ge i 128 with h2 | h2
    · rw [if_neg (show ¬(i / 64 = 0) by omega), if_pos (show i / 64 = 1 by omega),
        if_neg (show ¬(i < 64) by omega), if_pos h2]
    · rw [if_neg (show ¬(i / 64 = 0) by omega), if_neg (show ¬(i / 64 = 1) by omega),
        if_neg (show ¬(i < 64) by omega), if_neg (show ¬(i < 128) by omega)]

theorem BitSet.has_eq (b : BitSet) (j : Nat) :
    b.has j =
      if j < 64 then b.w0.testBit (j % 64)
      else if j < 128 then b.w1.testBit (j % 64)
      else false := by
  simp only [BitSet.has]
  rcases Nat.lt_or_ge j 64 with h | h
  · rw [if_neg (show ¬(2 ≤ j / 64) by omega), if_pos (show j / 64 = 0 by omega), if_pos h]
  · rcases Nat.lt_or_ge j 128 with h2 | h2
    · rw [if_neg (show ¬(2 ≤ j / 64) by omega), if_neg (show ¬(j / 64 = 0) by omega),
        if_neg (show ¬(j < 64) by omega), if_pos h2]
    · rw [if_pos (show 2 ≤ j / 64 by omega), if_neg (show ¬(j < 64) by omega),
        if_neg (show ¬(j < 128) by omega)]

theorem BitSet.set?_isSome_iff (b : BitSet) (i : Nat) :
    (b.set? i).isSome ↔ i < 128 := by
  rw [BitSet.set?_eq]
  rcases Nat.lt_or_ge i 64 with h | h
  · simp [h, show i < 128 by omega]
  · rcases Nat.lt_or_ge i 128 with h2 | h2
    · simp [show ¬(i < 64) by omega, h2]
    · simp [show ¬(i < 64) by omega, show ¬(i < 128) by omega, h2]

theorem BitSet.has_of_ge (b : BitSet) (j : Nat) (h : 128 ≤ j) :
    b.has j = false := by
  rw [BitSet.has_eq, if_neg (show ¬(j < 64) by omega), if_neg (show ¬(j < 128) by omega)]

theorem testBit_one_shiftLeft (n i : Nat) : (1 <<< n).testBit i = (i == n) := by
  rw [Nat.one_shiftLeft, Nat.testBit_two_pow]
  by_cases h : n = i
  · simp [h]
  · simp [h, Ne.symm h]

theorem BitSet.set?_has (b b' : BitSet) (i : Nat) (h : b.set? i = some b') :
    ∀ j, b'.has j = (b.has j || (j == i)) := by
  intro j
  rw [BitSet.set?_eq] at h
  by_cases hi : i < 64
  · rw [if_pos hi] at h
    obtain rfl : b' = ⟨b.w0 ||| 1 <<< (i % 64), b.w1⟩ := (Option.some.inj h).symm
    by_cases hj : j < 64
    · simp only [BitSet.has_eq, if_pos hj]
      rw [Nat.testBit_or, testBit_one_shiftLeft]
      by_cases hij : j = i
      · simp [hij]
      · have hm : ¬(j % 64 = i % 64) := by omega
        rw [beq_eq_false_iff_ne.mpr hm, beq_eq_false_iff_ne.mpr hij]
    · by_cases hj2 : j < 128
      · simp only [BitSet.has_eq, if_neg hj, if_pos hj2]
        simp [show ¬(j = i) by omega]
      · simp only [BitSet.has_eq, if_neg hj, if_neg hj2]
        simp [show ¬(j = i) by omega]
  · by_cases hi2 : i < 128
    · rw [if_neg hi, if_pos hi2] at h
      obtain rfl : b' = ⟨b.w0, b.w1 ||| 1 <<< (i % 64)⟩ := (Option.some.inj h).symm
      by_cases hj : j < 64
      · simp only [BitSet.has_eq, if_pos hj]
        simp [show ¬(j = i) by omega]
      · by_cases hj2 : j < 128
        · simp only [BitSet.has_eq, if_neg hj, if_pos hj2]
          rw [Nat.testBit_or, testBit_one_shiftLeft]
          by_cases hij : j = i
          · simp [hij]
          · have hm : ¬(j % 64 = i % 64) := by omega
            rw [beq_eq_false_iff_ne.mpr hm, beq_eq_false_iff_ne.mpr hij]
        · simp only [BitSet.has_eq, if_neg hj, if_neg hj2]
          simp [show ¬(j = i) by omega]
    · rw [if_neg hi, if_neg hi2] at h
      exact Option.noConfusion h

/-- Claim C5 (corrected): the claim's amended form.  `Set` is validated
nowhere: for an index below the 128-bit width it is a pure value update of
exactly the addressed bit, but for an index at or beyond the width it
aborts the program (out-of-bounds array write) instead of reporting
`InvalidComponentID`; `Has` is the operation that checks the word index and
reports out-of-range bits as unset. -/
theorem bitset_set_validation_amended (b : BitSet) (i j : Nat) :
    (i < 128 → (b.set? i).isSome ∧
      ((b.set? i).getD b).has j = (b.has j || (j == i))) ∧
    (128 ≤ i → b.set? i = none) ∧
    (128 ≤ j → b.has j = false) := by
  refine ⟨fun hlt => ?_, fun hge => ?_, fun hge => BitSet.has_of_ge b j hge⟩
  · have hs : (b.set? i).isSome := (BitSet.set?_isSome_iff b i).mpr hlt
    refine ⟨hs, ?_⟩
    rcases Option.isSome_iff_exists.mp hs with ⟨b', hb'⟩
    rw [hb']
    exact BitSet.set?_has b b' i hb' j
  · by_contra hne
    have : (b.set? i).isSome := by
      cases hx : b.set? i with
      | none => exact absurd hx hne
      | some b' => simp
    have := (BitSet.set?_isSome_iff b i).mp this
    omega

/-- Witness for `bitset_set_validation_amended` at concrete inputs. -/
theorem bitset_set_validation_witness :
    ((BitSet.empty.set? 5).isSome ∧
      ((BitSet.empty.set? 5).getD BitSet.empty).has 5 =
        (BitSet.empty.has 5 || (5 == 5))) ∧
    BitSet.empty.set? 130 = none :=
  ⟨(bitset_set_validation_amended BitSet.empty 5 5).1 (by decide),
   (bitset_set_validation_amended BitSet.empty 130 0).2.1 (by decide)⟩

/-- Claim C5 (counterexample): `Set` with bit index 128 aborts (`none`
models the Go panic) instead of returning an `InvalidComponentID` failure,
and `CreateEntity` with such a component ID aborts with it. -/
theorem set_out_of_range_panics_cex :
    BitSet.empty.set? 128 = none ∧
      newWorld.createEntity [⟨128, 0⟩] = none := by
  constructor <;> rfl

/-! ### Claim C2: hash-collision breaks archetype identity -/

/-- Claim C2 (code bug): signatures `{32}` and `{64}` have the same `Hash`
(`2^32`).  Creating entities with component sets `{32}`, `{64}`, `{32}`
leaves the world with 3 archetypes for only 2 distinct component-type-sets:
`registerArchetype` overwrote `archetypeMap[2^32]` with the `{64}`
archetype, so the third call cannot find the first `{32}` archetype again
and `getOrCreateArchetype` creates a duplicate, contrary to its own
contract of reusing an existing archetype. -/
theorem hash_collision_duplicate_archetype :
    (BitSet.hash ⟨2 ^ 32, 0⟩ = BitSet.hash ⟨0, 1⟩) ∧
    ((runOps [.create [⟨32, 0⟩], .create [⟨64, 0⟩], .create [⟨32, 0⟩]]).map
        (fun w => w.archetypes.length) = some 3) ∧
    ((runOps [.create [⟨32, 0⟩], .create [⟨64, 0⟩], .create [⟨32, 0⟩]]).map
        (fun w => (w.archetypes.map (fun a => a.signature)).dedup.length) = some 2) := by
  refine ⟨by decide, by decide, by decide⟩

/-! ### Claim C7: `GetComponent` failures return the zero value -/

/-- Claim C7 (counterexample): after creating entity 0 with component id 5
whose payload equals `T`'s zero value, a successful read of entity 0 and the
failing read of the absent entity 1 return the same value, and the read of
an absent component returns that value too — lookup failure is not
distinguishable from a successfully returned component value, and no
`EntityNotFound`/`ComponentNotPresent` result exists. -/
theorem getComponent_zero_indistinguishable_cex :
    (let w := ((newWorld.createEntity [⟨5, 0⟩]).getD (newWorld, 0)).1
     assocFind w.entityData 1 = none ∧
       getComponent w 0 5 0 = getComponent w 1 5 0 ∧
       getComponent w 0 5 0 = 0 ∧
       getComponent w 0 6 0 = 0) := by
  refine ⟨by decide, by decide, by decide, by decide⟩

/-- Claim C7 (corrected): the claim's amended form.  A `GetComponent` lookup
failure is signalled only by returning the zero value of the component
type: an `EntityID` absent from the world yields the zero value, and an
existing entity whose archetype lacks the requested component type yields
the zero value; no failure result distinct from a component value is
produced. -/
theorem getComponent_zero_on_miss (w : World) (e : Nat) (cid : Nat)
    (z : Nat) :
    (assocFind w.entityData e = none → getComponent w e cid z = z) ∧
    (∀ ai r a, assocFind w.entityData e = some (ai, r) →
      w.archetypes[ai]? = some a → a.findSlot cid = none →
      getComponent w e cid z = z) := by
  constructor
  · intro h
    simp [getComponent, h]
  · intro ai r a h1 h2 h3
    simp [getComponent, h1, h2, h3]

/-- Witness for `getComponent_zero_on_miss` at concrete inputs. -/
theorem getComponent_zero_on_miss_witness :
    getComponent newWorld 3 5 77 = 77 :=
  (getComponent_zero_on_miss newWorld 3 5 77).1 (by decide)

/-! ### Claim C9: `Update` runs the systems registered before the call -/

theorem update_trace_go (step : Nat → Float → World → World) (dt : Float) :
    ∀ (l : List Nat) (w0 : World) (acc : List (Nat × Float)),
      (l.foldl (fun acc s => (step s dt acc.1, acc.2 ++ [(s, dt)])) (w0, acc)).2 =
        acc ++ l.map (fun s => (s, dt)) := by
  intro l
  induction l with
  | nil => intro w0 acc; simp
  | cons s rest ih =>
    intro w0 acc
    simp only [List.foldl_cons, List.map_cons]
    rw [ih]
    simp

/-- Claim C9 (confirmed): `Update(dt)` invokes exactly the callbacks
registered before the call began — the snapshot `w.systems` — each exactly
once, in registration order, passing `dt` through unmodified, no matter how
the callbacks (`step`) mutate the world meanwhile; and `AddSystems` appends
to the registration list in order, so a callback registered during an
`Update` (by `step`) is part of the resulting world's list and is first
invoked by the next `Update` call. -/
theorem update_invokes_registered_in_order (w : World)
    (step : Nat → Float → World → World) (dt : Float) :
    (w.update step dt).2 = w.systems.map (fun s => (s, dt)) ∧
    (∀ ss : List Nat, (w.addSystems ss).systems = w.systems ++ ss) ∧
    (∀ w' : World, (w'.update step dt).2 = w'.systems.map (fun s => (s, dt))) := by
  refine ⟨?_, fun ss => rfl, fun w' => ?_⟩
  · unfold World.update
    rw [update_trace_go]
    simp
  · unfold World.update
    rw [update_trace_go]
    simp

/-! ### Claim C6: duplicate component ids in one `CreateEntity` call -/

/-- Claim C6 (counterexample): `CreateEntity` with two values of component
id 1 in one call is not an error — it silently creates the entity, the
later value (20) overwriting the earlier (10) in the component map. -/
theorem duplicate_component_silent_cex :
    (newWorld.createEntity [⟨1, 10⟩, ⟨1, 20⟩]).isSome = true ∧
    ((newWorld.createEntity [⟨1, 10⟩, ⟨1, 20⟩]).map
        (fun p => getComponent p.1 p.2 1 99) = some 20) := by
  refine ⟨by decide, by decide⟩

/-! ### Claim C1: `Query` serves stale cached results -/

/-- Claim C1 (counterexample): create an entity matching `filterA`, run
`Query` once (priming the cache), create a second matching entity, and run
the same `Query` again: it returns the single cached row although two
entities now match the filter — the second call does not reflect the
entity created after the earlier call. -/
theorem query_stale_after_create_cex :
    (let w1 := ((newWorld.createEntity [⟨1, 5⟩]).getD (newWorld, 0)).1
     let w2 := (filterA.query w1).1
     let w3 := ((w2.createEntity [⟨1, 6⟩]).getD (newWorld, 0)).1
     (filterA.query w3).2 = [[⟨1, 5⟩]] ∧
       ((List.range w3.nextEntityID).filter
         (fun e => w3.entityMatches filterA e)).length = 2) := by
  exact ⟨by decide, by decide⟩

/-! ### Claim C8: empty include-set -/

/-- Claim C8 (counterexample): `filterA = NewFilter(1)` and
`filterB = NewFilter().Without(0)` share the cache key
`include.Hash() ^ (exclude.Hash() << 1) = 2`; after `filterA.Query` caches
its one-row result, `filterB.Query` — whose include-set has zero bits —
returns that cached row instead of an empty result. -/
theorem empty_include_cache_collision_cex :
    filterB.incl.indices = [] ∧
    filterA.cacheKey = filterB.cacheKey ∧
    ((filterB.query ((runOps [Op.create [⟨1, 7⟩], Op.runQuery filterA]).getD
        newWorld)).2 = [[⟨1, 7⟩]]) ∧
    ((filterB.query ((runOps [Op.create [⟨1, 7⟩], Op.runQuery filterA]).getD
        newWorld)).2 ≠ []) := by
  refine ⟨by decide, by decide, by decide, by decide⟩

/-- Claim C8 (corrected): the claim's amended form.  A filter whose
include-set has zero bits yields an iterator over no archetypes, so the
iterator produces no rows, and `Query` returns an empty result whenever
the world's query cache holds no entry under the filter's cache key (in
particular on a fresh world or right after `ClearQueryCache`); but when a
different filter with a colliding cache key has cached a non-empty result,
`Query` serves that cached result instead. -/
theorem empty_include_matches_nothing_amended (w : World) (f : Filter)
    (h : f.incl.indices = []) :
    f.iterator w = ([], f.incl.indices) ∧ f.queryRows w = [] ∧
      (assocFind w.queryCache f.cacheKey = none → (f.query w).2 = []) := by
  have hit : f.iterator w = ([], f.incl.indices) := by
    simp only [Filter.iterator]
    rw [h]
    simp
  have hrows : f.queryRows w = [] := by
    unfold Filter.queryRows
    rw [hit, h]
    rfl
  refine ⟨hit, hrows, fun hmiss => ?_⟩
  simp only [Filter.query]
  rw [hmiss]
  simp [hrows]

/-- Witness for `empty_include_matches_nothing_amended` on a world holding
one entity and an empty query cache. -/
theorem empty_include_matches_nothing_witness :
    (filterB.iterator ((runOps [Op.create [⟨1, 7⟩]]).getD newWorld) =
      ([], filterB.incl.indices)) ∧
    filterB.queryRows ((runOps [Op.create [⟨1, 7⟩]]).getD newWorld) = [] ∧
    (filterB.query ((runOps [Op.create [⟨1, 7⟩]]).getD newWorld)).2 = [] :=
  ⟨(empty_include_matches_nothing_amended _ filterB (by decide)).1,
   (empty_include_matches_nothing_amended _ filterB (by decide)).2.1,
   (empty_include_matches_nothing_amended _ filterB (by decide)).2.2 (by decide)⟩

/-! ### BitSet semantics lemmas -/

theorem BitSet.empty_has (c : Nat) : BitSet.empty.has c = false := by
  rw [BitSet.has_eq]
  by_cases h1 : c < 64
  · rw [if_pos h1]
    exact Nat.zero_testBit _
  · by_cases h2 : c < 128
    · rw [if_neg h1, if_pos h2]
      exact Nat.zero_testBit _
    · rw [if_neg h1, if_neg h2]

theorem BitSet.equals_eq (b o : BitSet) (h : b.equals o = true) : b = o := by
  unfold BitSet.equals at h
  rw [Bool.and_eq_true, beq_iff_eq, beq_iff_eq] at h
  cases b
  cases o
  simp only at h
  simp [h.1, h.2]

theorem BitSet.containsAll_has (b o : BitSet) (h : b.containsAll o = true) :
    ∀ i, o.has i = true → b.has i = true := by
  unfold BitSet.containsAll at h
  rw [Bool.and_eq_true, beq_iff_eq, beq_iff_eq] at h
  intro i hi
  rw [BitSet.has_eq] at hi ⊢
  by_cases h1 : i < 64
  · rw [if_pos h1] at hi ⊢
    have h' : (b.w0.testBit (i % 64) && o.w0.testBit (i % 64)) = o.w0.testBit (i % 64) := by
      rw [← Nat.testBit_and, h.1]
    rw [hi, Bool.and_true] at h'
    exact h'
  · by_cases h2 : i < 128
    · rw [if_neg h1, if_pos h2] at hi ⊢
      have h' : (b.w1.testBit (i % 64) && o.w1.testBit (i % 64)) = o.w1.testBit (i % 64) := by
        rw [← Nat.testBit_and, h.2]
      rw [hi, Bool.and_true] at h'
      exact h'
    · rw [if_neg h1, if_neg h2] at hi
      exact absurd hi (by simp)

theorem BitSet.mem_indices_iff (b : BitSet) (i : Nat) : i ∈ b.indices ↔ b.has i = true := by
  unfold BitSet.indices
  rw [List.mem_append]
  constructor
  · rintro (h | h)
    · rw [List.mem_filter, List.mem_range] at h
      rw [BitSet.has_eq, if_pos h.1, Nat.mod_eq_of_lt h.1]
      exact h.2
    · rw [List.mem_map] at h
      obtain ⟨bit, hbit, rfl⟩ := h
      rw [List.mem_filter, List.mem_range] at hbit
      rw [BitSet.has_eq, if_neg (by omega), if_pos (by omega),
        show (64 + bit) % 64 = bit by omega]
      exact hbit.2
  · intro h
    rw [BitSet.has_eq] at h
    by_cases h1 : i < 64
    · left
      rw [if_pos h1, Nat.mod_eq_of_lt h1] at h
      rw [List.mem_filter, List.mem_range]
      exact ⟨h1, h⟩
    · by_cases h2 : i < 128
      · right
        rw [if_neg h1, if_pos h2] at h
        rw [List.mem_map]
        refine ⟨i - 64, ?_, by omega⟩
        rw [List.mem_filter, List.mem_range]
        exact ⟨by omega, by rwa [show i % 64 = i - 64 by omega] at h⟩
      · rw [if_neg h1, if_neg h2] at h
        exact absurd h (by simp)

/-! ### `setAll` / `buildSignature` lemmas -/

theorem setAll_has : ∀ (ids : List Nat) (sig sig' : BitSet), setAll sig ids = some sig' →
    ∀ c, sig'.has c = (sig.has c || ids.any (fun id => c == id)) := by
  intro ids
  induction ids with
  | nil =>
    intro sig sig' h c
    cases h
    simp
  | cons id rest ih =>
    intro sig sig' h c
    cases hset : sig.set? id with
    | none =>
      simp only [setAll, hset] at h
      exact Option.noConfusion h
    | some s1 =>
      simp only [setAll, hset] at h
      rw [ih s1 sig' h c, BitSet.set?_has sig s1 id hset c, List.any_cons,
        Bool.or_assoc]

theorem setAll_lt : ∀ (ids : List Nat) (sig sig' : BitSet), setAll sig ids = some sig' →
    ∀ id ∈ ids, id < 128 := by
  intro ids
  induction ids with
  | nil =>
    intro sig sig' _ id hid
    exact absurd hid (List.not_mem_nil id)
  | cons i rest ih =>
    intro sig sig' h id hid
    cases hset : sig.set? i with
    | none =>
      simp only [setAll, hset] at h
      exact Option.noConfusion h
    | some s1 =>
      simp only [setAll, hset] at h
      rcases List.mem_cons.mp hid with rfl | hmem
      · have := (BitSet.set?_isSome_iff sig id).mp (by simp [hset])
        exact this
      · exact ih s1 sig' h id hmem

theorem setAll_isSome : ∀ (ids : List Nat), (∀ id ∈ ids, id < 128) →
    ∀ sig : BitSet, (setAll sig ids).isSome := by
  intro ids
  induction ids with
  | nil => intro _ sig; simp [setAll]
  | cons i rest ih =>
    intro h sig
    have hi : i < 128 := h i (List.mem_cons_self i rest)
    rcases Option.isSome_iff_exists.mp ((BitSet.set?_isSome_iff sig i).mpr hi) with ⟨s1, hs1⟩
    simp only [setAll, hs1]
    exact ih (fun id hid => h id (List.mem_cons_of_mem i hid)) s1

theorem buildSignature_has (cs : List Component) (sig : BitSet)
    (h : buildSignature cs = some sig) :
    ∀ x, sig.has x = true ↔ ∃ y ∈ cs, y.cid = x := by
  intro x
  unfold buildSignature at h
  rw [setAll_has _ _ _ h x, BitSet.empty_has, Bool.false_or]
  simp only [List.any_eq_true, List.mem_map, beq_iff_eq]
  constructor
  · rintro ⟨a, ⟨y, hy, rfl⟩, rfl⟩
    exact ⟨y, hy, rfl⟩
  · rintro ⟨y, hy, rfl⟩
    exact ⟨y.cid, ⟨y, hy, rfl⟩, rfl⟩

theorem buildSignature_lt (cs : List Component) (sig : BitSet)
    (h : buildSignature cs = some sig) : ∀ y ∈ cs, y.cid < 128 := by
  intro y hy
  exact setAll_lt _ _ _ h y.cid (List.mem_map_of_mem (fun c => c.cid) hy)

theorem buildSignature_isSome (cs : List Component) (h : ∀ y ∈ cs, y.cid < 128) :
    (buildSignature cs).isSome := by
  apply setAll_isSome
  intro id hid
  rcases List.mem_map.mp hid with ⟨y, hy, rfl⟩
  exact h y hy

/-! ### `buildComponentMap` lemmas -/

theorem mem_insertComponent_cid (m : List Component) (c : Component) (x : Nat) :
    (∃ y ∈ insertComponent m c, y.cid = x) ↔ (∃ y ∈ m, y.cid = x) ∨ c.cid = x := by
  unfold insertComponent
  by_cases h : m.any (fun y => y.cid == c.cid)
  · rw [if_pos h]
    rcases List.any_eq_true.mp h with ⟨z, hz, hzc⟩
    rw [beq_iff_eq] at hzc
    constructor
    · rintro ⟨y, hy, rfl⟩
      rcases List.mem_map.mp hy with ⟨u, hu, rfl⟩
      by_cases hu2 : u.cid = c.cid
      · left
        exact ⟨u, hu, by simp [hu2]⟩
      · left
        exact ⟨u, hu, by simp [hu2]⟩
    · rintro (⟨y, hy, rfl⟩ | hcx)
      · by_cases hy2 : y.cid = c.cid
        · refine ⟨c, List.mem_map.mpr ⟨y, hy, by simp [hy2]⟩, hy2.symm ▸ rfl⟩
        · exact ⟨y, List.mem_map.mpr ⟨y, hy, by simp [hy2]⟩, rfl⟩
      · exact ⟨c, List.mem_map.mpr ⟨z, hz, by simp [hzc]⟩, hcx⟩
  · rw [if_neg h]
    constructor
    · rintro ⟨y, hy, rfl⟩
      rcases List.mem_append.mp hy with hy2 | hy2
      · exact Or.inl ⟨y, hy2, rfl⟩
      · rcases List.mem_singleton.mp hy2 with rfl
        exact Or.inr rfl
    · rintro (⟨y, hy, rfl⟩ | hcx)
      · exact ⟨y, List.mem_append.mpr (Or.inl hy), rfl⟩
      · exact ⟨c, List.mem_append.mpr (Or.inr (List.mem_singleton.mpr rfl)), hcx⟩

theorem buildComponentMapAux_mem_cid (x : Nat) :
    ∀ (cs acc : List Component),
      (∃ y ∈ cs.foldl insertComponent acc, y.cid = x) ↔
        (∃ y ∈ acc, y.cid = x) ∨ (∃ y ∈ cs, y.cid = x) := by
  intro cs
  induction cs with
  | nil =>
    intro acc
    simp
  | cons c rest ih =>
    intro acc
    rw [List.foldl_cons, ih, mem_insertComponent_cid]
    simp only [List.mem_cons]
    constructor
    · rintro ((⟨y, hy, rfl⟩ | hcx) | ⟨y, hy, rfl⟩)
      · exact Or.inl ⟨y, hy, rfl⟩
      · exact Or.inr ⟨c, Or.inl rfl, hcx⟩
      · exact Or.inr ⟨y, Or.inr hy, rfl⟩
    · rintro (⟨y, hy, rfl⟩ | ⟨y, hy2, rfl⟩)
      · exact Or.inl (Or.inl ⟨y, hy, rfl⟩)
      · rcases hy2 with rfl | hy3
        · exact Or.inl (Or.inr rfl)
        · exact Or.inr ⟨y, hy3, rfl⟩

theorem mem_buildComponentMap_cid (cs : List Component) (x : Nat) :
    (∃ y ∈ buildComponentMap cs, y.cid = x) ↔ ∃ y ∈ cs, y.cid = x := by
  unfold buildComponentMap
  rw [buildComponentMapAux_mem_cid]
  simp

theorem insertComponent_cids (m : List Component) (c : Component) :
    (insertComponent m c).map (fun x => x.cid) =
      if m.any (fun x => x.cid == c.cid) then m.map (fun x => x.cid)
      else m.map (fun x => x.cid) ++ [c.cid] := by
  unfold insertComponent
  by_cases h : m.any (fun x => x.cid == c.cid)
  · rw [if_pos h, if_pos h, List.map_map]
    apply List.map_congr_left
    intro x _
    by_cases hx : x.cid = c.cid
    · simp [hx]
    · simp [hx]
  · rw [if_neg h, if_neg h, List.map_append]
    rfl

theorem insertComponent_cids_nodup (m : List Component) (c : Component)
    (h : (m.map (fun y => y.cid)).Nodup) :
    ((insertComponent m c).map (fun y => y.cid)).Nodup := by
  rw [insertComponent_cids]
  by_cases hp : m.any (fun x => x.cid == c.cid)
  · rwa [if_pos hp]
  · rw [if_neg hp]
    rw [List.nodup_append]
    refine ⟨h, List.nodup_singleton _, ?_⟩
    intro x hx hx2
    rcases List.mem_singleton.mp hx2 with rfl
    rcases List.mem_map.mp hx with ⟨y, hy, hy2⟩
    exact absurd (List.any_eq_true.mpr ⟨y, hy, by simp [hy2]⟩) hp

theorem buildComponentMapAux_nodup :
    ∀ (cs acc : List Component), ((acc.map (fun y => y.cid)).Nodup) →
      (((cs.foldl insertComponent acc).map (fun y => y.cid)).Nodup) := by
  intro cs
  induction cs with
  | nil => intro acc h; exact h
  | cons c rest ih =>
    intro acc h
    rw [List.foldl_cons]
    exact ih _ (insertComponent_cids_nodup acc c h)

theorem buildComponentMap_cids_nodup (cs : List Component) :
    ((buildComponentMap cs).map (fun y => y.cid)).Nodup :=
  buildComponentMapAux_nodup cs [] (by simp)

theorem buildComponentMapAux_eq_self :
    ∀ (cs acc : List Component), (((acc ++ cs).map (fun y => y.cid)).Nodup) →
      cs.foldl insertComponent acc = acc ++ cs := by
  intro cs
  induction cs with
  | nil =>
    intro acc _
    simp
  | cons c rest ih =>
    intro acc h
    rw [List.foldl_cons]
    have hnodup := h
    rw [List.map_append, List.nodup_append] at hnodup
    have habs : ¬(acc.any (fun x => x.cid == c.cid) = true) := by
      intro hany
      rcases List.any_eq_true.mp hany with ⟨y, hy, hyc⟩
      rw [beq_iff_eq] at hyc
      exact hnodup.2.2 (List.mem_map.mpr ⟨y, hy, hyc⟩)
        (by rw [List.map_cons]; exact List.mem_cons_self _ _)
    have hins : insertComponent acc c = acc ++ [c] := by
      unfold insertComponent
      rw [if_neg habs]
    rw [hins, ih (acc ++ [c]) (by simpa using h)]
    simp

theorem buildComponentMap_eq_self (cs : List Component)
    (h : (cs.map (fun y => y.cid)).Nodup) : buildComponentMap cs = cs := by
  unfold buildComponentMap
  rw [buildComponentMapAux_eq_self cs [] (by simpa using h)]
  simp

theorem find?_cid_eq_of_nodup :
    ∀ (cs : List Component) (c : Component),
      ((cs.map (fun y => y.cid)).Nodup) → c ∈ cs →
        cs.find? (fun y => y.cid == c.cid) = some c := by
  intro cs
  induction cs with
  | nil =>
    intro c _ hm
    exact absurd hm (List.not_mem_nil c)
  | cons y rest ih =>
    intro c hnd hm
    rw [List.map_cons, List.nodup_cons] at hnd
    rcases List.mem_cons.mp hm with rfl | hm2
    · rw [List.find?_cons_of_pos _ (by simp)]
    · have hne : ¬(y.cid = c.cid) := by
        intro he
        exact hnd.1 (he ▸ List.mem_map.mpr ⟨c, hm2, rfl⟩)
      rw [List.find?_cons_of_neg _ (by simpa using hne)]
      exact ih c hnd.2 hm2

/-! ### Invariant plumbing -/

theorem archHasComp_congr (w w' : World) (h : w'.archetypes = w.archetypes) :
    ∀ ai id, archHasComp w' ai id = archHasComp w ai id := by
  intro ai id
  unfold archHasComp
  rw [h]

theorem wcore_congr (calls : List (List Component)) (w w' : World) (h : WCore calls w)
    (ha : w'.archetypes = w.archetypes)
    (hb : w'.archetypesByComponent = w.archetypesByComponent)
    (hc : w'.entityData = w.entityData) : WCore calls w' := by
  refine ⟨?_, ?_, ?_, ?_, ?_, ?_, ?_, ?_, ?_, ?_, ?_⟩
  · intro e he
    rw [hc]
    exact h.ed_some e he
  · intro e he
    rw [hc]
    exact h.ed_none e he
  · intro e ai r hfind
    rw [hc] at hfind
    rw [ha]
    exact h.ed_loc e ai r hfind
  · intro ai a r e hval hent
    rw [ha] at hval
    rw [hc]
    exact h.row_owner ai a r e hval hent
  · intro ai a hval
    rw [ha] at hval
    exact h.col_len ai a hval
  · intro ai a hval
    rw [ha] at hval
    exact h.cell_val ai a hval
  · intro ai a r e hval hent
    rw [ha] at hval
    exact h.row_sig ai a r e hval hent
  · intro ai a hval
    rw [ha] at hval
    exact h.sig_slots ai a hval
  · intro ai a hval
    rw [ha] at hval
    exact h.slots_nodup ai a hval
  · intro id l hfind
    rw [hb] at hfind
    rw [ha]
    have := h.bycomp_some id l hfind
    rw [this]
    apply List.filter_congr
    intro ai _
    exact (archHasComp_congr w w' ha ai id).symm
  · intro id hfind
    rw [hb] at hfind
    rw [ha]
    have := h.bycomp_none id hfind
    rw [← this]
    apply List.filter_congr
    intro ai _
    exact archHasComp_congr w w' ha ai id

theorem winv_newWorld : WInv [] newWorld := by
  refine ⟨⟨?_, ?_, ?_, ?_, ?_, ?_, ?_, ?_, ?_, ?_, ?_⟩, rfl⟩
  · intro e he
    exact absurd he (by simp)
  · intro e _
    rfl
  · intro e ai r hfind
    exact absurd hfind (by simp [assocFind, newWorld])
  · intro ai a r e hval _
    exact absurd hval (by simp [newWorld])
  · intro ai a hval
    exact absurd hval (by simp [newWorld])
  · intro ai a hval
    exact absurd hval (by simp [newWorld])
  · intro ai a r e hval _
    exact absurd hval (by simp [newWorld])
  · intro ai a hval
    exact absurd hval (by simp [newWorld])
  · intro ai a hval
    exact absurd hval (by simp [newWorld])
  · intro id l hfind
    exact absurd hfind (by simp [assocFind, newWorld])
  · intro id _
    rfl

/-- `Filter.Query` only touches the query cache. -/
theorem query_world_fields (f : Filter) (w : World) :
    (f.query w).1.archetypes = w.archetypes ∧
    (f.query w).1.archetypesByComponent = w.archetypesByComponent ∧
    (f.query w).1.entityData = w.entityData ∧
    (f.query w).1.nextEntityID = w.nextEntityID := by
  simp only [Filter.query]
  cases (assocFind w.queryCache f.cacheKey).bind
      (fun entry => assocFind entry.cache f.cacheKey) with
  | some r => exact ⟨rfl, rfl, rfl, rfl⟩
  | none => exact ⟨rfl, rfl, rfl, rfl⟩

/-- The `archetypesByComponent` update of `registerArchetype`, characterised
per key: every slot id of the new archetype gets the new index appended to
its (possibly missing) list, other keys are untouched. -/
theorem bycomp_foldl (ai : Nat) :
    ∀ (slots : List ComponentSlot) (m : List (Nat × List Nat)) (id : Nat),
      ((slots.map (fun s => s.id)).Nodup) →
      assocFind (slots.foldl (fun m slot =>
          assocInsert m slot.id ((assocFind m slot.id).getD [] ++ [ai])) m) id =
        if slots.any (fun s => s.id == id)
        then some ((assocFind m id).getD [] ++ [ai])
        else assocFind m id := by
  intro slots
  induction slots with
  | nil =>
    intro m id _
    simp
  | cons s rest ih =>
    intro m id hnd
    rw [List.map_cons, List.nodup_cons] at hnd
    rw [List.foldl_cons]
    by_cases hid : s.id = id
    · subst hid
      have hrest : rest.any (fun t => t.id == s.id) = false := by
        rw [List.any_eq_false]
        intro t ht
        simp only [beq_iff_eq]
        intro he
        exact hnd.1 (List.mem_map.mpr ⟨t, ht, he⟩)
      rw [ih _ s.id hnd.2, hrest, if_neg (by simp), if_pos (by simp),
        assocFind_insert_self]
    · have hhead : ((s.id == id) : Bool) = false := by simpa using hid
      rw [ih _ id hnd.2, assocFind_insert_ne _ _ _ _ hid, List.any_cons, hhead,
        Bool.false_or]

theorem registerArchetype_bycomp (w : World) (arch : Archetype)
    (hnd : (arch.components.map (fun s => s.id)).Nodup) (id : Nat) :
    assocFind (w.registerArchetype arch).archetypesByComponent id =
      if arch.components.any (fun s => s.id == id)
      then some ((assocFind w.archetypesByComponent id).getD [] ++ [w.archetypes.length])
      else assocFind w.archetypesByComponent id := by
  unfold World.registerArchetype
  exact bycomp_foldl w.archetypes.length arch.components w.archetypesByComponent id hnd

/-- The two outcomes of `getOrCreateArchetype`: reuse an existing archetype
whose signature fully equals the request, or register a fresh one. -/
theorem getOrCreateArchetype_cases (w : World) (sig : BitSet) (m : List Component) :
    (∃ ai a, w.getOrCreateArchetype sig m = (w, ai) ∧ w.archetypes[ai]? = some a ∧
      a.signature = sig) ∨
    w.getOrCreateArchetype sig m =
      (w.registerArchetype (mkArchetype sig m), w.archetypes.length) := by
  unfold World.getOrCreateArchetype
  cases hfound : (assocFind w.archetypeMap sig.hash).bind
      (fun ai => (w.archetypes[ai]?).map (fun a => (ai, a))) with
  | none => right; rfl
  | some p =>
    obtain ⟨ai, a⟩ := p
    dsimp only
    obtain ⟨x, hx, hmap⟩ := Option.bind_eq_some.mp hfound
    obtain ⟨a', ha', hpair⟩ := Option.map_eq_some'.mp hmap
    have hx2 : x = ai := congrArg Prod.fst hpair
    have ha2 : a' = a := congrArg Prod.snd hpair
    rw [hx2, ha2] at ha'
    by_cases heq : a.signature.equals sig
    · left
      exact ⟨ai, a, by rw [if_pos heq], ha', BitSet.equals_eq _ _ heq⟩
    · right
      rw [if_neg heq]
      rfl

theorem createEntity_eq (w : World) (cs : List Component) (sig : BitSet)
    (hsig : buildSignature cs = some sig) :
    w.createEntity cs =
      (match ({ w with nextEntityID := w.nextEntityID + 1 : World}.getOrCreateArchetype
          sig (buildComponentMap cs)).1.archetypes[
            ({ w with nextEntityID := w.nextEntityID + 1 : World}.getOrCreateArchetype
              sig (buildComponentMap cs)).2]? with
       | none => none
       | some a =>
         some ({ ({ w with nextEntityID := w.nextEntityID + 1 : World}.getOrCreateArchetype
                    sig (buildComponentMap cs)).1 with
                   archetypes :=
                     (({ w with nextEntityID := w.nextEntityID + 1 : World}.getOrCreateArchetype
                        sig (buildComponentMap cs)).1).archetypes.set
                       (({ w with nextEntityID := w.nextEntityID + 1 : World}.getOrCreateArchetype
                          sig (buildComponentMap cs)).2)
                       (a.addEntity w.nextEntityID (buildComponentMap cs)).1
                   entityData :=
                     assocInsert (({ w with nextEntityID := w.nextEntityID + 1 : World}.getOrCreateArchetype
                        sig (buildComponentMap cs)).1).entityData w.nextEntityID
                       ((({ w with nextEntityID := w.nextEntityID + 1 : World}.getOrCreateArchetype
                          sig (buildComponentMap cs)).2),
                        (a.addEntity w.nextEntityID (buildComponentMap cs)).2) },
               w.nextEntityID)) := by
  unfold World.createEntity
  rw [hsig]

theorem getElem?_append_lt {α : Type} (l l' : List α) (i : Nat) (h : i < l.length) :
    (l ++ l')[i]? = l[i]? := by
  rw [List.getElem?_append, if_pos h]

theorem getElem?_append_length {α : Type} (l : List α) (x : α) :
    (l ++ [x])[l.length]? = some x := by
  rw [List.getElem?_append_right (Nat.le_refl l.length)]
  simp

theorem getElem?_append_cases {α : Type} (l : List α) (x : α) (i : Nat) (y : α)
    (h : (l ++ [x])[i]? = some y) :
    (i < l.length ∧ l[i]? = some y) ∨ (i = l.length ∧ y = x) := by
  by_cases hi : i < l.length
  · left
    refine ⟨hi, ?_⟩
    rw [getElem?_append_lt _ _ _ hi] at h
    exact h
  · right
    rw [List.getElem?_append_right (Nat.le_of_not_lt hi)] at h
    rcases Nat.lt_or_ge i (l.length + 1) with h2 | h2
    · have : i - l.length = 0 := by omega
      rw [this] at h
      simp only [List.getElem?_cons_zero] at h
      exact ⟨by omega, (Option.some.inj h).symm⟩
    · have : (([x] : List α)[i - l.length]?) = none := by
        rw [List.getElem?_eq_none]
        simp
        omega
      rw [this] at h
      exact Option.noConfusion h

theorem suppliedMap_append_lt (calls : List (List Component)) (cs : List Component)
    (e : Nat) (h : e < calls.length) :
    suppliedMap (calls ++ [cs]) e = suppliedMap calls e := by
  unfold suppliedMap
  rw [getElem?_append_lt _ _ _ h]

theorem suppliedMap_append_last (calls : List (List Component)) (cs : List Component) :
    suppliedMap (calls ++ [cs]) calls.length = buildComponentMap cs := by
  unfold suppliedMap
  rw [getElem?_append_length]
  rfl

theorem entity_lt_of_find_some (calls : List (List Component)) (w : World)
    (hcore : WCore calls w) (e : Nat) (v : Nat × Nat)
    (h : assocFind w.entityData e = some v) : e < calls.length := by
  by_contra hge
  rw [hcore.ed_none e (Nat.le_of_not_lt hge)] at h
  exact Option.noConfusion h

theorem mkArchetype_ids (sig : BitSet) (m : List Component) :
    (mkArchetype sig m).components.map (fun s => s.id) = m.map (fun c => c.cid) := by
  unfold mkArchetype
  rw [List.map_map]
  rfl

/-- Registering the fresh archetype of a valid `CreateEntity` call preserves
the core invariant: the new archetype holds no rows yet. -/
theorem wcore_register (calls : List (List Component)) (w : World) (hcore : WCore calls w)
    (cs : List Component) (sig : BitSet) (hsig : buildSignature cs = some sig) :
    WCore calls (w.registerArchetype (mkArchetype sig (buildComponentMap cs))) := by
  set m := buildComponentMap cs with hm
  set arch := mkArchetype sig m with harch
  have hids : arch.components.map (fun s => s.id) = m.map (fun c => c.cid) :=
    mkArchetype_ids sig m
  have hnd : (arch.components.map (fun s => s.id)).Nodup := by
    rw [hids]
    exact buildComponentMap_cids_nodup cs
  have harchs : (w.registerArchetype arch).archetypes = w.archetypes ++ [arch] := rfl
  have hed : (w.registerArchetype arch).entityData = w.entityData := rfl
  have hlen1 : (w.registerArchetype arch).archetypes.length = w.archetypes.length + 1 := by
    rw [harchs, List.length_append]
    rfl
  have hget : ∀ (ai : Nat) (a : Archetype),
      (w.registerArchetype arch).archetypes[ai]? = some a →
      (ai < w.archetypes.length ∧ w.archetypes[ai]? = some a) ∨
        (ai = w.archetypes.length ∧ a = arch) := by
    intro ai a h
    rw [harchs] at h
    exact getElem?_append_cases _ _ _ _ h
  have hgetlt : ∀ ai : Nat, ai < w.archetypes.length →
      (w.registerArchetype arch).archetypes[ai]? = w.archetypes[ai]? := by
    intro ai hai
    rw [harchs, getElem?_append_lt _ _ _ hai]
  have hhascomp : ∀ (ai : Nat), ai < w.archetypes.length →
      ∀ id, archHasComp (w.registerArchetype arch) ai id = archHasComp w ai id := by
    intro ai hai id
    unfold archHasComp
    rw [hgetlt ai hai]
  have hhastop : ∀ id, archHasComp (w.registerArchetype arch) w.archetypes.length id =
      arch.components.any (fun s => s.id == id) := by
    intro id
    unfold archHasComp
    rw [harchs, getElem?_append_length]
  have hfilter : ∀ id, (List.range (w.archetypes.length + 1)).filter
      (fun ai => archHasComp (w.registerArchetype arch) ai id) =
      ((List.range w.archetypes.length).filter (fun ai => archHasComp w ai id)) ++
        (if arch.components.any (fun s => s.id == id)
         then [w.archetypes.length] else []) := by
    intro id
    rw [List.range_succ, List.filter_append]
    congr 1
    · apply List.filter_congr
      intro ai hai
      exact hhascomp ai (List.mem_range.mp hai) id
    · rw [List.filter_cons]
      rw [hhastop id]
      by_cases hany : arch.components.any (fun s => s.id == id)
      · rw [if_pos hany, if_pos hany]
        rfl
      · rw [if_neg hany, if_neg hany]
        rfl
  refine ⟨?_, ?_, ?_, ?_, ?_, ?_, ?_, ?_, ?_, ?_, ?_⟩
  · intro e he
    rw [hed]
    exact hcore.ed_some e he
  · intro e he
    rw [hed]
    exact hcore.ed_none e he
  · intro e ai r hfind
    rw [hed] at hfind
    obtain ⟨a, hval, hent⟩ := hcore.ed_loc e ai r hfind
    have hai : ai < w.archetypes.length := (List.getElem?_eq_some.mp hval).1
    exact ⟨a, by rw [hgetlt ai hai]; exact hval, hent⟩
  · intro ai a r e hval hent
    rw [hed]
    rcases hget ai a hval with ⟨hai, hval'⟩ | ⟨hai, rfl⟩
    · exact hcore.row_owner ai a r e hval' hent
    · rw [show arch.entities = [] from rfl] at hent
      simp at hent
  · intro ai a hval
    rcases hget ai a hval with ⟨_, hval'⟩ | ⟨_, rfl⟩
    · exact hcore.col_len ai a hval'
    · intro slot hslot
      rcases List.mem_map.mp hslot with ⟨c, _, rfl⟩
      rfl
  · intro ai a hval
    rcases hget ai a hval with ⟨_, hval'⟩ | ⟨_, rfl⟩
    · exact hcore.cell_val ai a hval'
    · intro slot _ r e hent
      rw [show arch.entities = [] from rfl] at hent
      simp at hent
  · intro ai a r e hval hent
    rcases hget ai a hval with ⟨_, hval'⟩ | ⟨_, rfl⟩
    · exact hcore.row_sig ai a r e hval' hent
    · rw [show arch.entities = [] from rfl] at hent
      simp at hent
  · intro ai a hval
    rcases hget ai a hval with ⟨_, hval'⟩ | ⟨_, rfl⟩
    · exact hcore.sig_slots ai a hval'
    · intro c
      rw [show arch.signature = sig from rfl]
      rw [buildSignature_has cs sig hsig c]
      rw [← mem_buildComponentMap_cid cs c, ← hm]
      constructor
      · rintro ⟨y, hy, rfl⟩
        exact ⟨⟨y.cid, []⟩, List.mem_map.mpr ⟨y, hy, rfl⟩, rfl⟩
      · rintro ⟨s, hs, rfl⟩
        rcases List.mem_map.mp hs with ⟨y, hy, rfl⟩
        exact ⟨y, hy, rfl⟩
  · intro ai a hval
    rcases hget ai a hval with ⟨_, hval'⟩ | ⟨_, rfl⟩
    · exact hcore.slots_nodup ai a hval'
    · exact hnd
  · intro id l hfind
    rw [registerArchetype_bycomp w arch hnd id] at hfind
    rw [hlen1, hfilter id]
    by_cases hany : arch.components.any (fun s => s.id == id)
    · rw [if_pos hany] at hfind
      rw [if_pos hany]
      have hl : l = (assocFind w.archetypesByComponent id).getD [] ++
          [w.archetypes.length] := (Option.some.inj hfind).symm
      rw [hl]
      congr 1
      cases hold : assocFind w.archetypesByComponent id with
      | some l0 =>
        rw [Option.getD_some]
        exact hcore.bycomp_some id l0 hold
      | none =>
        rw [Option.getD_none, hcore.bycomp_none id hold]
    · rw [if_neg hany] at hfind
      rw [if_neg hany, List.append_nil]
      exact hcore.bycomp_some id l hfind
  · intro id hfind
    rw [registerArchetype_bycomp w arch hnd id] at hfind
    by_cases hany : arch.components.any (fun s => s.id == id)
    · rw [if_pos hany] at hfind
      exact Option.noConfusion hfind
    · rw [if_neg hany] at hfind
      rw [hlen1, hfilter id, if_neg hany, List.append_nil]
      exact hcore.bycomp_none id hfind

/-- Appending the row of a fresh entity to an archetype whose signature
equals the entity's signature preserves the core invariant, extending the
call list by the new call. -/
theorem wcore_addEntity (calls : List (List Component)) (cs : List Component)
    (sig : BitSet) (hsig : buildSignature cs = some sig)
    (w0 : World) (hcore : WCore calls w0) (ai : Nat) (a : Archetype)
    (haval : w0.archetypes[ai]? = some a) (hasig : a.signature = sig)
    (e : Nat) (he : calls.length = e) :
    WCore (calls ++ [cs])
      { w0 with
          archetypes := w0.archetypes.set ai (a.addEntity e (buildComponentMap cs)).1
          entityData := assocInsert w0.entityData e
            (ai, (a.addEntity e (buildComponentMap cs)).2) } := by
  set m := buildComponentMap cs with hm
  set A2 := (a.addEntity e m).1 with hA2
  set idx := (a.addEntity e m).2 with hidx
  set X : World :=
      { w0 with
          archetypes := w0.archetypes.set ai A2
          entityData := assocInsert w0.entityData e (ai, idx) } with hX
  have hidx_eq : idx = a.entities.length := rfl
  have hA2ent : A2.entities = a.entities ++ [e] := rfl
  have hA2sig : A2.signature = a.signature := rfl
  have hA2comps : A2.components = a.components.map (fun slot =>
      match m.find? (fun c => c.cid == slot.id) with
      | some c => { slot with data := slot.data ++ [c] }
      | none => slot) := rfl
  have hXarch : X.archetypes = w0.archetypes.set ai A2 := rfl
  have hXed : X.entityData = assocInsert w0.entityData e (ai, idx) := rfl
  have hXbc : X.archetypesByComponent = w0.archetypesByComponent := rfl
  have hai_lt : ai < w0.archetypes.length := (List.getElem?_eq_some.mp haval).1
  have hXlen : X.archetypes.length = w0.archetypes.length := by
    rw [hXarch, List.length_set]
  have hfresh : assocFind w0.entityData e = none := hcore.ed_none e (le_of_eq he)
  have hgid : ∀ slot : ComponentSlot, ((match m.find? (fun c => c.cid == slot.id) with
      | some c => { slot with data := slot.data ++ [c] }
      | none => slot) : ComponentSlot).id = slot.id := by
    intro slot
    cases m.find? (fun c => c.cid == slot.id) <;> rfl
  have hids2 : A2.components.map (fun s => s.id) = a.components.map (fun s => s.id) := by
    rw [hA2comps, List.map_map]
    apply List.map_congr_left
    intro slot _
    exact hgid slot
  have hcov : ∀ slot ∈ a.components, (m.find? (fun c => c.cid == slot.id)).isSome := by
    intro slot hslot
    have h1 : a.signature.has slot.id = true :=
      (hcore.sig_slots ai a haval slot.id).mpr ⟨slot, hslot, rfl⟩
    rw [hasig] at h1
    have h2 : ∃ y ∈ cs, y.cid = slot.id := (buildSignature_has cs sig hsig slot.id).mp h1
    have h3 : ∃ y ∈ m, y.cid = slot.id := by
      rw [hm]
      exact (mem_buildComponentMap_cid cs slot.id).mpr h2
    rcases h3 with ⟨y, hy, hyid⟩
    exact List.find?_isSome.mpr ⟨y, hy, by simp [hyid]⟩
  have hlenslots : ∀ slot ∈ a.components, slot.data.length = a.entities.length :=
    hcore.col_len ai a haval
  have hnorow : ∀ (ai' : Nat) (a' : Archetype) (r : Nat),
      w0.archetypes[ai']? = some a' → ¬(a'.entities[r]? = some e) := by
    intro ai' a' r hval hent
    have hro := hcore.row_owner ai' a' r e hval hent
    rw [hfresh] at hro
    exact Option.noConfusion hro
  have hhc : ∀ (ai' id : Nat), archHasComp X ai' id = archHasComp w0 ai' id := by
    intro ai' id
    unfold archHasComp
    rw [hXarch]
    by_cases hne : ai' = ai
    · subst hne
      rw [List.getElem?_set_self hai_lt, haval]
      show (A2.components.any (fun s => s.id == id)) = (a.components.any (fun s => s.id == id))
      rw [Bool.eq_iff_iff, List.any_eq_true, List.any_eq_true]
      constructor
      · rintro ⟨s, hs, hsid⟩
        rw [hA2comps] at hs
        rcases List.mem_map.mp hs with ⟨s0, hs0, rfl⟩
        refine ⟨s0, hs0, ?_⟩
        rw [← hgid s0]
        exact hsid
      · rintro ⟨s0, hs0, hsid⟩
        refine ⟨(match m.find? (fun c => c.cid == s0.id) with
          | some c => { s0 with data := s0.data ++ [c] }
          | none => s0), ?_, ?_⟩
        · rw [hA2comps]
          exact List.mem_map.mpr ⟨s0, hs0, rfl⟩
        · rw [hgid s0]
          exact hsid
    · rw [List.getElem?_set_ne (fun hx => hne hx.symm)]
  have hlen' : (calls ++ [cs]).length = calls.length + 1 := by simp
  refine ⟨?_, ?_, ?_, ?_, ?_, ?_, ?_, ?_, ?_, ?_, ?_⟩
  · intro e' he'
    rw [hXed]
    by_cases hee : e' = e
    · replace hee := hee.symm; subst hee
      rw [assocFind_insert_self]
      rfl
    · rw [assocFind_insert_ne _ _ _ _ (fun hx => hee hx.symm)]
      apply hcore.ed_some
      rw [hlen'] at he'
      omega
  · intro e' he'
    rw [hXed]
    rw [hlen'] at he'
    rw [assocFind_insert_ne _ _ _ _ (by omega)]
    exact hcore.ed_none e' (by omega)
  · intro e' ai' r hfind
    rw [hXed] at hfind
    by_cases hee : e' = e
    · replace hee := hee.symm; subst hee
      rw [assocFind_insert_self] at hfind
      obtain ⟨rfl, rfl⟩ : ai = ai' ∧ idx = r := by
        have h1 := congrArg Prod.fst (Option.some.inj hfind)
        have h2 := congrArg Prod.snd (Option.some.inj hfind)
        exact ⟨h1, h2⟩
      refine ⟨A2, ?_, ?_⟩
      · rw [hXarch]
        exact List.getElem?_set_self hai_lt
      · rw [hA2ent]
        exact getElem?_append_length a.entities e
    · rw [assocFind_insert_ne _ _ _ _ (fun hx => hee hx.symm)] at hfind
      obtain ⟨a', hval', hent'⟩ := hcore.ed_loc e' ai' r hfind
      by_cases hai' : ai' = ai
      · replace hai' := hai'.symm; subst hai'
        obtain rfl : a = a' := Option.some.inj (haval.symm.trans hval')
        have hr : r < a.entities.length := (List.getElem?_eq_some.mp hent').1
        refine ⟨A2, ?_, ?_⟩
        · rw [hXarch]
          exact List.getElem?_set_self hai_lt
        · rw [hA2ent, getElem?_append_lt _ _ _ hr]
          exact hent'
      · refine ⟨a', ?_, hent'⟩
        rw [hXarch, List.getElem?_set_ne (fun hx => hai' hx.symm)]
        exact hval'
  · intro ai' a'' r e' hval'' hent''
    rw [hXed]
    rw [hXarch] at hval''
    by_cases hai' : ai' = ai
    · replace hai' := hai'.symm; subst hai'
      rw [List.getElem?_set_self hai_lt] at hval''
      obtain rfl : A2 = a'' := Option.some.inj hval''
      rw [hA2ent] at hent''
      rcases getElem?_append_cases _ _ _ _ hent'' with ⟨hr, hent⟩ | ⟨hr, rfl⟩
      · have hne : e' ≠ e := fun hx => hnorow ai a r haval (hx ▸ hent)
        rw [assocFind_insert_ne _ _ _ _ (fun hx => hne hx.symm)]
        exact hcore.row_owner ai a r e' haval hent
      · subst hr
        rw [assocFind_insert_self]
        rfl
    · rw [List.getElem?_set_ne (fun hx => hai' hx.symm)] at hval''
      have hne : e' ≠ e := fun hx => hnorow ai' a'' r hval'' (hx ▸ hent'')
      rw [assocFind_insert_ne _ _ _ _ (fun hx => hne hx.symm)]
      exact hcore.row_owner ai' a'' r e' hval'' hent''
  · intro ai' a'' hval''
    rw [hXarch] at hval''
    by_cases hai' : ai' = ai
    · replace hai' := hai'.symm; subst hai'
      rw [List.getElem?_set_self hai_lt] at hval''
      obtain rfl : A2 = a'' := Option.some.inj hval''
      intro slot hslot
      rw [hA2comps] at hslot
      rcases List.mem_map.mp hslot with ⟨s0, hs0, rfl⟩
      rcases Option.isSome_iff_exists.mp (hcov s0 hs0) with ⟨c, hc⟩
      rw [hA2ent]
      simp only [hc, List.length_append, hlenslots s0 hs0]
      rfl
    · rw [List.getElem?_set_ne (fun hx => hai' hx.symm)] at hval''
      exact hcore.col_len ai' a'' hval''
  · intro ai' a'' hval'' slot hslot r e' hent''
    rw [hXarch] at hval''
    by_cases hai' : ai' = ai
    · replace hai' := hai'.symm; subst hai'
      rw [List.getElem?_set_self hai_lt] at hval''
      obtain rfl : A2 = a'' := Option.some.inj hval''
      rw [hA2comps] at hslot
      rcases List.mem_map.mp hslot with ⟨s0, hs0, rfl⟩
      rw [hA2ent] at hent''
      rcases getElem?_append_cases _ _ _ _ hent'' with ⟨hr, hent⟩ | ⟨hr, rfl⟩
      · have he'lt : e' < calls.length :=
          entity_lt_of_find_some calls w0 hcore e' _
            (hcore.row_owner ai a r e' haval hent)
        rw [suppliedMap_append_lt calls cs e' he'lt]
        have hold := hcore.cell_val ai a haval s0 hs0 r e' hent
        cases hfind : m.find? (fun c => c.cid == s0.id) with
        | some c =>
          simp only [hfind]
          rw [getElem?_append_lt _ _ _ (by rw [hlenslots s0 hs0]; exact hr)]
          exact hold
        | none =>
          simp only [hfind]
          exact hold
      · subst hr
        rw [← he, suppliedMap_append_last]
        cases hfind : m.find? (fun c => c.cid == s0.id) with
        | some c =>
          simp only [hfind]
          rw [← hlenslots s0 hs0, getElem?_append_length]
        | none =>
          simp only [hfind]
          rw [List.getElem?_eq_none (le_of_eq (hlenslots s0 hs0))]
    · rw [List.getElem?_set_ne (fun hx => hai' hx.symm)] at hval''
      have he'lt : e' < calls.length :=
        entity_lt_of_find_some calls w0 hcore e' _
          (hcore.row_owner ai' a'' r e' hval'' hent'')
      rw [suppliedMap_append_lt calls cs e' he'lt]
      exact hcore.cell_val ai' a'' hval'' slot hslot r e' hent''
  · intro ai' a'' r e' hval'' hent''
    rw [hXarch] at hval''
    by_cases hai' : ai' = ai
    · replace hai' := hai'.symm; subst hai'
      rw [List.getElem?_set_self hai_lt] at hval''
      obtain rfl : A2 = a'' := Option.some.inj hval''
      rw [hA2ent] at hent''
      rw [hA2sig]
      rcases getElem?_append_cases _ _ _ _ hent'' with ⟨hr, hent⟩ | ⟨hr, rfl⟩
      · have he'lt : e' < calls.length :=
          entity_lt_of_find_some calls w0 hcore e' _
            (hcore.row_owner ai a r e' haval hent)
        rw [getElem?_append_lt _ _ _ he'lt]
        exact hcore.row_sig ai a r e' haval hent
      · rw [← he, getElem?_append_length]
        rw [hasig]
        exact hsig
    · rw [List.getElem?_set_ne (fun hx => hai' hx.symm)] at hval''
      have he'lt : e' < calls.length :=
        entity_lt_of_find_some calls w0 hcore e' _
          (hcore.row_owner ai' a'' r e' hval'' hent'')
      rw [getElem?_append_lt _ _ _ he'lt]
      exact hcore.row_sig ai' a'' r e' hval'' hent''
  · intro ai' a'' hval'' c
    rw [hXarch] at hval''
    by_cases hai' : ai' = ai
    · replace hai' := hai'.symm; subst hai'
      rw [List.getElem?_set_self hai_lt] at hval''
      obtain rfl : A2 = a'' := Option.some.inj hval''
      rw [hA2sig, hcore.sig_slots ai a haval c]
      constructor
      · rintro ⟨s0, hs0, hs0c⟩
        refine ⟨(match m.find? (fun c => c.cid == s0.id) with
          | some c => { s0 with data := s0.data ++ [c] }
          | none => s0), ?_, ?_⟩
        · rw [hA2comps]
          exact List.mem_map.mpr ⟨s0, hs0, rfl⟩
        · rw [hgid s0]
          exact hs0c
      · rintro ⟨s, hs, hsc⟩
        rw [hA2comps] at hs
        rcases List.mem_map.mp hs with ⟨s0, hs0, rfl⟩
        refine ⟨s0, hs0, ?_⟩
        rw [← hgid s0]
        exact hsc
    · rw [List.getElem?_set_ne (fun hx => hai' hx.symm)] at hval''
      exact hcore.sig_slots ai' a'' hval'' c
  · intro ai' a'' hval''
    rw [hXarch] at hval''
    by_cases hai' : ai' = ai
    · replace hai' := hai'.symm; subst hai'
      rw [List.getElem?_set_self hai_lt] at hval''
      obtain rfl : A2 = a'' := Option.some.inj hval''
      rw [hids2]
      exact hcore.slots_nodup ai a haval
    · rw [List.getElem?_set_ne (fun hx => hai' hx.symm)] at hval''
      exact hcore.slots_nodup ai' a'' hval''
  · intro id l hfind
    have hf' : assocFind w0.archetypesByComponent id = some l := hXbc ▸ hfind
    rw [hXlen, hcore.bycomp_some id l hf']
    apply List.filter_congr
    intro ai' _
    exact (hhc ai' id).symm
  · intro id hfind
    have hf' : assocFind w0.archetypesByComponent id = none := hXbc ▸ hfind
    rw [hXlen, ← hcore.bycomp_none id hf']
    apply List.filter_congr
    intro ai' _
    exact hhc ai' id

theorem createEntity_winv (calls : List (List Component)) (w w' : World)
    (cs : List Component) (e : Nat) (hinv : WInv calls w)
    (hc : w.createEntity cs = some (w', e)) :
    e = calls.length ∧ WInv (calls ++ [cs]) w' := by
  cases hsig : buildSignature cs with
  | none =>
    rw [show w.createEntity cs = none from by unfold World.createEntity; rw [hsig]] at hc
    exact Option.noConfusion hc
  | some sig =>
    rw [createEntity_eq w cs sig hsig] at hc
    set m := buildComponentMap cs with hm
    set w1 : World := { w with nextEntityID := w.nextEntityID + 1 } with hw1
    have hw1core : WCore calls w1 := wcore_congr calls w w1 hinv.toWCore rfl rfl rfl
    rcases getOrCreateArchetype_cases w1 sig m with ⟨ai, a, hgo, haval, hasig⟩ | hgo
    · rw [hgo] at hc
      dsimp only at hc
      rw [haval] at hc
      rw [Option.some.injEq, Prod.mk.injEq] at hc
      obtain ⟨hw', he⟩ := hc
      refine ⟨?_, ?_⟩
      · rw [← he]
        exact hinv.next_eq
      · rw [← hw']
        refine ⟨?_, ?_⟩
        · exact wcore_addEntity calls cs sig hsig w1 hw1core ai a haval hasig
            w.nextEntityID hinv.next_eq.symm
        · show w.nextEntityID + 1 = (calls ++ [cs]).length
          rw [hinv.next_eq, List.length_append]
          rfl
    · rw [hgo] at hc
      dsimp only at hc
      have hat : (w1.registerArchetype (mkArchetype sig m)).archetypes[
          w1.archetypes.length]? = some (mkArchetype sig m) := by
        rw [show (w1.registerArchetype (mkArchetype sig m)).archetypes =
          w1.archetypes ++ [mkArchetype sig m] from rfl]
        exact getElem?_append_length _ _
      rw [hat] at hc
      rw [Option.some.injEq, Prod.mk.injEq] at hc
      obtain ⟨hw', he⟩ := hc
      refine ⟨?_, ?_⟩
      · rw [← he]
        exact hinv.next_eq
      · rw [← hw']
        have hw2core : WCore calls (w1.registerArchetype (mkArchetype sig m)) :=
          wcore_register calls w1 hw1core cs sig hsig
        refine ⟨?_, ?_⟩
        · exact wcore_addEntity calls cs sig hsig _ hw2core w1.archetypes.length
            (mkArchetype sig m) hat rfl w.nextEntityID hinv.next_eq.symm
        · show w.nextEntityID + 1 = (calls ++ [cs]).length
          rw [hinv.next_eq, List.length_append]
          rfl

theorem createEntity_isSome (w : World) (cs : List Component) (sig : BitSet)
    (hsig : buildSignature cs = some sig) : (w.createEntity cs).isSome := by
  rw [createEntity_eq w cs sig hsig]
  set m := buildComponentMap cs with hm
  set w1 : World := { w with nextEntityID := w.nextEntityID + 1 } with hw1
  rcases getOrCreateArchetype_cases w1 sig m with ⟨ai, a, hgo, haval, _⟩ | hgo
  · rw [hgo]
    dsimp only
    rw [haval]
    rfl
  · rw [hgo]
    dsimp only
    have hat : (w1.registerArchetype (mkArchetype sig m)).archetypes[
        w1.archetypes.length]? = some (mkArchetype sig m) := by
      rw [show (w1.registerArchetype (mkArchetype sig m)).archetypes =
        w1.archetypes ++ [mkArchetype sig m] from rfl]
      exact getElem?_append_length _ _
    rw [hat]
    rfl

theorem runOps_append (ops : List Op) (op : Op) :
    runOps (ops ++ [op]) = (runOps ops).bind (fun w => applyOp w op) := by
  unfold runOps
  rw [List.foldl_append]
  rfl

theorem createdCalls_append (ops : List Op) (op : Op) :
    createdCalls (ops ++ [op]) = createdCalls ops ++ createdCalls [op] := by
  unfold createdCalls
  rw [List.filterMap_append]

/-- Every world `runOps` produces satisfies the storage invariant. -/
theorem runOps_winv : ∀ (ops : List Op) (w : World), runOps ops = some w →
    WInv (createdCalls ops) w := by
  intro ops
  induction ops using List.reverseRecOn with
  | nil =>
    intro w h
    obtain rfl : newWorld = w := Option.some.inj h
    exact winv_newWorld
  | append_singleton ops op ih =>
    intro w h
    rw [runOps_append] at h
    rcases Option.bind_eq_some.mp h with ⟨w0, hw0, happ⟩
    have hinv0 := ih w0 hw0
    cases op with
    | create cs =>
      simp only [applyOp] at happ
      rcases Option.map_eq_some'.mp happ with ⟨p, hce, hw1⟩
      obtain ⟨w1, e⟩ := p
      have hstep := createEntity_winv (createdCalls ops) w0 w1 cs e hinv0 hce
      rw [createdCalls_append]
      obtain rfl : w1 = w := hw1
      exact hstep.2
    | runQuery f =>
      simp only [applyOp] at happ
      obtain rfl : (f.query w0).1 = w := Option.some.inj happ
      have hfields := query_world_fields f w0
      rw [createdCalls_append, show createdCalls [Op.runQuery f] = [] from rfl,
        List.append_nil]
      exact ⟨wcore_congr _ _ _ hinv0.toWCore hfields.1 hfields.2.1 hfields.2.2.1,
        by rw [hfields.2.2.2]; exact hinv0.next_eq⟩
    | clearCache =>
      simp only [applyOp] at happ
      obtain rfl : w0.clearQueryCache = w := Option.some.inj happ
      rw [createdCalls_append, show createdCalls [Op.clearCache] = [] from rfl,
        List.append_nil]
      exact ⟨wcore_congr _ _ _ hinv0.toWCore rfl rfl rfl, hinv0.next_eq⟩

theorem mem_of_getElem?_some {α : Type} (l : List α) (i : Nat) (x : α)
    (h : l[i]? = some x) : x ∈ l := by
  rcases List.getElem?_eq_some.mp h with ⟨hlt, rfl⟩
  exact List.getElem_mem hlt

/-- Creating an entity and immediately reading component `cid` back returns
the value the call's component map holds for `cid`. -/
theorem roundTrip_get (ops : List Op) (w : World) (h : runOps ops = some w)
    (cs : List Component) (w' : World) (e : Nat)
    (hc : w.createEntity cs = some (w', e)) (cid : Nat) (c : Component)
    (hfind : (buildComponentMap cs).find? (fun x => x.cid == cid) = some c)
    (z : Nat) : getComponent w' e cid z = c.val := by
  have hinv := runOps_winv ops w h
  obtain ⟨he, hinv'⟩ := createEntity_winv (createdCalls ops) w w' cs e hinv hc
  have hlt : e < (createdCalls ops ++ [cs]).length := by
    rw [List.length_append, he]
    simp
  have hsome : (assocFind w'.entityData e).isSome := hinv'.ed_some e hlt
  rcases Option.isSome_iff_exists.mp hsome with ⟨p, hfe⟩
  obtain ⟨ai, r⟩ := p
  obtain ⟨a, haval, hent⟩ := hinv'.ed_loc e ai r hfe
  have hrow_sig := hinv'.row_sig ai a r e haval hent
  rw [he, getElem?_append_length] at hrow_sig
  have hbs : buildSignature cs = some a.signature := hrow_sig
  have hcmem : ∃ y ∈ buildComponentMap cs, y.cid = cid :=
    ⟨c, List.mem_of_find?_eq_some hfind, by simpa using List.find?_some hfind⟩
  have hhas : a.signature.has cid = true :=
    (buildSignature_has cs a.signature hbs cid).mpr
      ((mem_buildComponentMap_cid cs cid).mp hcmem)
  have hslot : ∃ s ∈ a.components, s.id = cid :=
    (hinv'.sig_slots ai a haval cid).mp hhas
  have hfs : (a.components.find? (fun s => s.id == cid)).isSome := by
    rcases hslot with ⟨s, hs, hsid⟩
    exact List.find?_isSome.mpr ⟨s, hs, by simp [hsid]⟩
  rcases Option.isSome_iff_exists.mp hfs with ⟨slot, hslot_eq⟩
  have hslot_id : slot.id = cid := by simpa using List.find?_some hslot_eq
  have hslot_mem : slot ∈ a.components := List.mem_of_find?_eq_some hslot_eq
  have hcell := hinv'.cell_val ai a haval slot hslot_mem r e hent
  rw [show suppliedMap (createdCalls ops ++ [cs]) e = buildComponentMap cs from by
    rw [he, suppliedMap_append_last]] at hcell
  rw [hslot_id, hfind] at hcell
  simp only [getComponent, hfe, haval, Archetype.findSlot, hslot_eq, hcell]

/-- Claim C4 (confirmed): for every reachable world, creating an entity with
component value `c` among its components (one value per distinct component
type) and immediately reading that component type back via `GetComponent`
yields a value equal to `c`'s. -/
theorem create_get_roundtrip (ops : List Op) (w : World) (h : runOps ops = some w)
    (cs : List Component) (w' : World) (e : Nat)
    (hc : w.createEntity cs = some (w', e))
    (hnd : (cs.map (fun c => c.cid)).Nodup) (c : Component) (hmem : c ∈ cs) (z : Nat) :
    getComponent w' e c.cid z = c.val := by
  apply roundTrip_get ops w h cs w' e hc c.cid c _ z
  rw [buildComponentMap_eq_self cs hnd]
  exact find?_cid_eq_of_nodup cs c hnd hmem

/-- Witness for `create_get_roundtrip` on a fresh world. -/
theorem create_get_roundtrip_witness :
    getComponent ((newWorld.createEntity [⟨1, 42⟩]).getD (newWorld, 0)).1 0 1 0 = 42 :=
  create_get_roundtrip [] newWorld rfl [⟨1, 42⟩]
    ((newWorld.createEntity [⟨1, 42⟩]).getD (newWorld, 0)).1 0 rfl (by decide)
    ⟨1, 42⟩ (by decide) 0

/-- In the overwrite branch of a map assignment, looking the assigned id up
finds the assigned value. -/
theorem find?_replace_cid_self (m : List Component) (c : Component)
    (h : m.any (fun x => x.cid == c.cid) = true) :
    (m.map (fun x => if x.cid == c.cid then c else x)).find?
      (fun x => x.cid == c.cid) = some c := by
  induction m with
  | nil => exact absurd h (by simp)
  | cons x xs ih =>
    rw [List.map_cons]
    by_cases hx : (x.cid == c.cid) = true
    · rw [if_pos hx]
      rw [List.find?_cons_of_pos _ (by simp)]
    · rw [if_neg hx]
      rw [List.find?_cons_of_neg _ (by exact hx)]
      apply ih
      rcases List.any_eq_true.mp h with ⟨y, hy, hyc⟩
      rcases List.mem_cons.mp hy with rfl | hy2
      · exact absurd hyc hx
      · exact List.any_eq_true.mpr ⟨y, hy2, hyc⟩

/-- A map assignment does not change the lookup of any other id. -/
theorem find?_replace_cid_ne (m : List Component) (c : Component) (id : Nat)
    (h : id ≠ c.cid) :
    (m.map (fun x => if x.cid == c.cid then c else x)).find?
      (fun x => x.cid == id) = m.find? (fun x => x.cid == id) := by
  induction m with
  | nil => rfl
  | cons x xs ih =>
    rw [List.map_cons]
    by_cases hx : (x.cid == c.cid) = true
    · rw [if_pos hx]
      rw [List.find?_cons_of_neg _ (by simp [Ne.symm h])]
      rw [List.find?_cons_of_neg _ (by
        have hxe := eq_of_beq hx
        simp [hxe, Ne.symm h])]
      exact ih
    · rw [if_neg hx]
      by_cases hxid : (x.cid == id) = true
      · rw [List.find?_cons_of_pos _ (by exact hxid), List.find?_cons_of_pos _ (by exact hxid)]
      · rw [List.find?_cons_of_neg _ (by exact hxid), List.find?_cons_of_neg _ (by exact hxid)]
        exact ih

/-- `componentMap[c.ID()] = c` makes the lookup of `c.ID()` find `c`. -/
theorem insertComponent_find_self (m : List Component) (c : Component) :
    (insertComponent m c).find? (fun x => x.cid == c.cid) = some c := by
  unfold insertComponent
  by_cases h : m.any (fun x => x.cid == c.cid) = true
  · rw [if_pos h]
    exact find?_replace_cid_self m c h
  · rw [if_neg h]
    rw [List.find?_append]
    rw [List.find?_eq_none.mpr (fun x hx =>
      List.any_eq_false.mp (Bool.eq_false_iff.mpr h) x hx)]
    rw [Option.none_or]
    rw [List.find?_cons_of_pos _ (by simp)]

/-- `componentMap[c.ID()] = c` leaves the lookup of every other id alone. -/
theorem insertComponent_find_ne (m : List Component) (c : Component) (id : Nat)
    (h : id ≠ c.cid) :
    (insertComponent m c).find? (fun x => x.cid == id) =
      m.find? (fun x => x.cid == id) := by
  unfold insertComponent
  by_cases hc : m.any (fun x => x.cid == c.cid) = true
  · rw [if_pos hc]
    exact find?_replace_cid_ne m c id h
  · rw [if_neg hc]
    rw [List.find?_append]
    rw [List.find?_cons_of_neg _ (by simp [Ne.symm h]), List.find?_nil]
    cases hm : m.find? (fun x => x.cid == id) with
    | none => rfl
    | some y => rfl

/-- Folding Go map assignments over the argument list makes the lookup of
any id find the LAST argument carrying that id (and fall back to the
initial map when the id never occurs). -/
theorem foldl_insertComponent_find (cs : List Component) :
    ∀ (m : List Component) (id : Nat),
      (cs.foldl insertComponent m).find? (fun x => x.cid == id) =
        match cs.reverse.find? (fun x => x.cid == id) with
        | some c => some c
        | none => m.find? (fun x => x.cid == id) := by
  induction cs with
  | nil => intro m id; rfl
  | cons c cs ih =>
    intro m id
    rw [List.foldl_cons, ih]
    rw [List.reverse_cons, List.find?_append]
    cases hrev : cs.reverse.find? (fun x => x.cid == id) with
    | some y => rfl
    | none =>
      rw [Option.none_or]
      by_cases hc : (c.cid == id) = true
      · rw [List.find?_cons_of_pos _ (by exact hc)]
        replace hc := eq_of_beq hc
        subst hc
        exact insertComponent_find_self m c
      · rw [List.find?_cons_of_neg _ (by exact hc), List.find?_nil]
        exact insertComponent_find_ne m c id
          (fun he => hc (by rw [he]; simp))

/-- Claim C6 (corrected): the claim's amended form.  A `CreateEntity` call
whose argument list contains two component values with the same
`ComponentID` (in any position, other components present or not) is not
reported as an error: the entity is silently created with the next entity
id, and for every component id the value stored — and read back by
`GetComponent` — is the LAST value supplied for that id, the later
duplicate overwriting the earlier one in the component map. -/
theorem createEntity_duplicate_last_wins (ops : List Op) (w : World)
    (h : runOps ops = some w) (cs : List Component)
    (hlt : ∀ y ∈ cs, y.cid < 128)
    (_hdup : ¬ (cs.map (fun y => y.cid)).Nodup) :
    ∃ w' : World, w.createEntity cs = some (w', w.nextEntityID) ∧
      ∀ c : Component, cs.reverse.find? (fun x => x.cid == c.cid) = some c →
        ∀ z : Nat, getComponent w' w.nextEntityID c.cid z = c.val := by
  have hsig : (buildSignature cs).isSome := buildSignature_isSome cs hlt
  rcases Option.isSome_iff_exists.mp hsig with ⟨sig, hsig'⟩
  rcases Option.isSome_iff_exists.mp (createEntity_isSome w cs sig hsig') with ⟨p, hp⟩
  obtain ⟨w', e⟩ := p
  have hinv := runOps_winv ops w h
  have hw := createEntity_winv (createdCalls ops) w w' cs e hinv hp
  have he : e = w.nextEntityID := by
    rw [hw.1, hinv.next_eq]
  subst he
  refine ⟨w', hp, ?_⟩
  intro c hlast z
  apply roundTrip_get ops w h cs w' _ hp c.cid c _ z
  unfold buildComponentMap
  rw [foldl_insertComponent_find cs [] c.cid, hlast]

/-- Witness for `createEntity_duplicate_last_wins` on a fresh world: the
call carries a duplicate of id 1 with an unrelated id 2 in between. -/
theorem createEntity_duplicate_last_wins_witness :
    ∃ w' : World,
      newWorld.createEntity [⟨1, 10⟩, ⟨2, 5⟩, ⟨1, 20⟩] = some (w', 0) ∧
      ∀ c : Component,
        (([⟨1, 10⟩, ⟨2, 5⟩, ⟨1, 20⟩] : List Component)).reverse.find?
          (fun x => x.cid == c.cid) = some c →
        ∀ z : Nat, getComponent w' 0 c.cid z = c.val :=
  createEntity_duplicate_last_wins [] newWorld rfl
    [⟨1, 10⟩, ⟨2, 5⟩, ⟨1, 20⟩] (by decide) (by decide)

/-- Claim C3 (confirmed): after every sequence of engine operations whose
`CreateEntity` calls each carry distinct component ids (and all ids below
the bitset width, or the call would abort), every archetype satisfies row
alignment: each column is exactly as long as the entity list, and the value
of column `slot` at row `r` is the component value the creation call of the
entity `entities[r]` supplied for `slot.id`. -/
theorem archetype_row_alignment (ops : List Op) (w : World) (h : runOps ops = some w)
    (hnd : ∀ cs ∈ createdCalls ops, (cs.map (fun c => c.cid)).Nodup) :
    ∀ (ai : Nat) (a : Archetype), w.archetypes[ai]? = some a →
      (∀ slot ∈ a.components, slot.data.length = a.entities.length) ∧
      (∀ slot ∈ a.components, ∀ (r e : Nat), a.entities[r]? = some e →
        slot.data[r]? = (((createdCalls ops)[e]?).getD []).find?
          (fun c => c.cid == slot.id)) := by
  have hinv := runOps_winv ops w h
  intro ai a haval
  refine ⟨hinv.col_len ai a haval, ?_⟩
  intro slot hslot r e hent
  rw [hinv.cell_val ai a haval slot hslot r e hent]
  unfold suppliedMap
  cases hx : (createdCalls ops)[e]? with
  | none => rfl
  | some cs =>
    rw [Option.getD_some, buildComponentMap_eq_self cs
      (hnd cs (mem_of_getElem?_some _ _ _ hx))]

/-- Witness for `archetype_row_alignment` after one concrete creation. -/
theorem archetype_row_alignment_witness :
    ((((runOps [Op.create [⟨1, 5⟩, ⟨2, 6⟩]]).getD newWorld).archetypes.getD 0
        ⟨⟨0, 0⟩, [], [], []⟩).components.getD 0 ⟨0, []⟩).data.length =
      (((runOps [Op.create [⟨1, 5⟩, ⟨2, 6⟩]]).getD newWorld).archetypes.getD 0
        ⟨⟨0, 0⟩, [], [], []⟩).entities.length ∧
    ((((runOps [Op.create [⟨1, 5⟩, ⟨2, 6⟩]]).getD newWorld).archetypes.getD 0
        ⟨⟨0, 0⟩, [], [], []⟩).components.getD 0 ⟨0, []⟩).data[0]? = some ⟨1, 5⟩ := by
  have h := archetype_row_alignment [Op.create [⟨1, 5⟩, ⟨2, 6⟩]]
    ((runOps [Op.create [⟨1, 5⟩, ⟨2, 6⟩]]).getD newWorld) rfl (by decide) 0
    (((runOps [Op.create [⟨1, 5⟩, ⟨2, 6⟩]]).getD newWorld).archetypes.getD 0
      ⟨⟨0, 0⟩, [], [], []⟩) (by decide)
  refine ⟨h.1 _ (by decide), ?_⟩
  rw [h.2 _ (by decide) 0 0 (by decide)]
  decide

/-! ### Query correctness: the iterator's rows -/

theorem filterMap_eq_map_of_some {α β : Type} (l : List α) (f : α → Option β)
    (g : α → β) (h : ∀ x ∈ l, f x = some (g x)) : l.filterMap f = l.map g := by
  induction l with
  | nil => rfl
  | cons x rest ih =>
    rw [List.filterMap_cons, h x (List.mem_cons_self _ _), List.map_cons,
      ih (fun y hy => h y (List.mem_cons_of_mem x hy))]

theorem filter_filterMap {α β : Type} (l : List α) (g : α → Option β) (p : β → Bool) :
    (l.filterMap g).filter p =
      l.filterMap (fun x => (g x).bind (fun b => if p b then some b else none)) := by
  induction l with
  | nil => rfl
  | cons x rest ih =>
    rw [List.filterMap_cons, List.filterMap_cons]
    cases hx : g x with
    | none =>
      simp only [Option.none_bind]
      exact ih
    | some b =>
      simp only [Option.some_bind]
      by_cases hp : p b
      · simp only [if_pos hp]
        rw [List.filter_cons_of_pos hp, ih]
      · simp only [if_neg hp]
        rw [List.filter_cons_of_neg hp, ih]

theorem filterMap_filter_list {α β : Type} (l : List α) (q : α → Bool) (g : α → Option β) :
    (l.filter q).filterMap g = l.filterMap (fun x => if q x then g x else none) := by
  induction l with
  | nil => rfl
  | cons x rest ih =>
    rw [List.filter_cons, List.filterMap_cons]
    by_cases hq : q x
    · rw [if_pos hq, if_pos hq, List.filterMap_cons, ih]
    · rw [if_neg hq, if_neg hq, ih]

theorem collectData_eq (a : Archetype) :
    ∀ ids : List Nat, (∀ id ∈ ids, (a.findSlot id).isSome) →
      collectData a ids =
        some (ids.map (fun id => ((a.findSlot id).getD ⟨0, []⟩).data)) := by
  intro ids
  induction ids with
  | nil => intro _; rfl
  | cons id rest ih =>
    intro h
    rcases Option.isSome_iff_exists.mp (h id (List.mem_cons_self id rest)) with ⟨slot, hslot⟩
    unfold collectData
    rw [ih (fun x hx => h x (List.mem_cons_of_mem id hx))]
    unfold Archetype.getComponentData
    rw [hslot, List.map_cons, hslot]
    rfl

theorem rowAt_eq : ∀ (arrays : List (List Component)) (r : Nat),
    (∀ arr ∈ arrays, r < arr.length) →
    rowAt arrays r = some (arrays.map (fun arr => (arr[r]?).getD ⟨0, 0⟩)) := by
  intro arrays
  induction arrays with
  | nil => intro r _; rfl
  | cons arr rest ih =>
    intro r h
    have h1 : r < arr.length := h arr (List.mem_cons_self _ _)
    have hx : arr[r]? = some arr[r] := List.getElem?_eq_getElem h1
    unfold rowAt
    rw [ih r (fun y hy => h y (List.mem_cons_of_mem arr hy)), hx, List.map_cons, hx]
    rfl

theorem iterRows_eq (a : Archetype) (ids : List Nat) (hids : ids ≠ [])
    (hpresent : ∀ id ∈ ids, (a.findSlot id).isSome)
    (hlen : ∀ slot ∈ a.components, slot.data.length = a.entities.length) :
    a.iterRows ids = (List.range a.entities.length).map
      (fun r => ids.map (fun id => cellAt a id r)) := by
  have hlens : ∀ arr ∈ ids.map (fun id => ((a.findSlot id).getD ⟨0, []⟩).data),
      arr.length = a.entities.length := by
    intro arr harr
    rcases List.mem_map.mp harr with ⟨id, hid, rfl⟩
    rcases Option.isSome_iff_exists.mp (hpresent id hid) with ⟨slot, hslot⟩
    rw [hslot, Option.getD_some]
    exact hlen slot (List.mem_of_find?_eq_some hslot)
  unfold Archetype.iterRows
  rw [collectData_eq a ids hpresent]
  dsimp only
  by_cases hN : a.entities.length = 0
  · rw [if_pos hN, hN]
    rfl
  · rw [if_neg hN]
    cases hc : ids.map (fun id => ((a.findSlot id).getD ⟨0, []⟩).data) with
    | nil =>
      exact absurd (List.map_eq_nil_iff.mp hc) hids
    | cons arr0 rest =>
      have harr0 : arr0.length = a.entities.length := by
        apply hlens
        rw [hc]
        exact List.mem_cons_self _ _
      dsimp only
      rw [harr0]
      apply filterMap_eq_map_of_some
      intro r hr
      have hrN : r < a.entities.length := List.mem_range.mp hr
      rw [← hc, rowAt_eq _ r (by
        intro arr harr
        rw [hlens arr harr]
        exact hrN)]
      congr 1
      rw [List.map_map]
      apply List.map_congr_left
      intro id hid
      rcases Option.isSome_iff_exists.mp (hpresent id hid) with ⟨slot, hslot⟩
      have hrlen : r < slot.data.length := by
        rw [hlen slot (List.mem_of_find?_eq_some hslot)]
        exact hrN
      simp only [Function.comp, hslot, Option.getD_some, cellAt]
      rw [List.getElem?_eq_getElem hrlen]
      rfl

theorem getElem?_isSome_of_lt {α : Type} (l : List α) (i : Nat) (h : i < l.length) :
    (l[i]?).isSome := by
  rw [List.getElem?_eq_getElem h]
  rfl

theorem selectCandidatesGo_some (w : World) :
    ∀ (ids : List Nat) (best : Option (List Nat)) (res : List Nat),
      selectCandidatesGo w ids best = some res →
      best = some res ∨ ∃ id ∈ ids, assocFind w.archetypesByComponent id = some res := by
  intro ids
  induction ids with
  | nil =>
    intro best res h
    left
    exact h
  | cons id rest ih =>
    intro best res h
    unfold selectCandidatesGo at h
    cases hl : assocFind w.archetypesByComponent id with
    | none =>
      rw [hl] at h
      exact Option.noConfusion h
    | some l =>
      rw [hl] at h
      cases best with
      | none =>
        dsimp only at h
        rcases ih (some l) res h with h2 | h2
        · right
          refine ⟨id, List.mem_cons_self _ _, ?_⟩
          rw [hl, h2]
        · rcases h2 with ⟨id', hid', hfind⟩
          exact Or.inr ⟨id', List.mem_cons_of_mem id hid', hfind⟩
      | some b =>
        dsimp only at h
        rcases ih _ res h with h2 | h2
        · by_cases hlt : l.length < b.length
          · rw [if_pos hlt] at h2
            right
            refine ⟨id, List.mem_cons_self _ _, ?_⟩
            rw [hl, h2]
          · rw [if_neg hlt] at h2
            left
            exact h2
        · rcases h2 with ⟨id', hid', hfind⟩
          exact Or.inr ⟨id', List.mem_cons_of_mem id hid', hfind⟩

theorem selectCandidatesGo_none (w : World) :
    ∀ (ids : List Nat) (best : Option (List Nat)),
      selectCandidatesGo w ids best = none →
      (ids = [] ∧ best = none) ∨
        ∃ id ∈ ids, assocFind w.archetypesByComponent id = none := by
  intro ids
  induction ids with
  | nil =>
    intro best h
    exact Or.inl ⟨rfl, h⟩
  | cons id rest ih =>
    intro best h
    unfold selectCandidatesGo at h
    cases hl : assocFind w.archetypesByComponent id with
    | none => exact Or.inr ⟨id, List.mem_cons_self _ _, hl⟩
    | some l =>
      rw [hl] at h
      cases best with
      | none =>
        dsimp only at h
        rcases ih (some l) h with ⟨_, h2⟩ | h2
        · exact Option.noConfusion h2
        · rcases h2 with ⟨id', hid', hfind⟩
          exact Or.inr ⟨id', List.mem_cons_of_mem id hid', hfind⟩
      | some b =>
        dsimp only at h
        rcases ih _ h with ⟨_, h2⟩ | h2
        · exact Option.noConfusion h2
        · rcases h2 with ⟨id', hid', hfind⟩
          exact Or.inr ⟨id', List.mem_cons_of_mem id hid', hfind⟩

theorem iterator_snd (f : Filter) (w : World) :
    (f.iterator w).2 = f.incl.indices := by
  unfold Filter.iterator
  by_cases hempty : f.incl.indices.isEmpty
  · rw [if_pos hempty]
  · rw [if_neg hempty]
    cases selectCandidates w f.incl.indices <;> rfl

/-- The rows the engine yields, as one permutation statement: the drained
query rows are exactly one row per live matching entity. -/
theorem queryRows_perm_live (ops : List Op) (w : World) (f : Filter)
    (h : runOps ops = some w) :
    (f.queryRows w).Perm (w.liveResult f) := by
  have hinv := runOps_winv ops w h
  by_cases hempty : f.incl.indices.isEmpty
  · have h1 : f.queryRows w = [] := by
      unfold Filter.queryRows drainIterator Filter.iterator
      rw [if_pos hempty]
      rfl
    have h2 : w.liveResult f = [] := by
      unfold World.liveResult
      rw [List.filter_eq_nil_iff.mpr ?_]
      · rfl
      · intro e _
        unfold World.entityMatches
        rw [hempty]
        simp
    rw [h1, h2]
  · have hids_ne : f.incl.indices ≠ [] := by
      intro hx
      rw [hx] at hempty
      exact hempty rfl
    -- a matching archetype's signature has every include id as a slot
    have hpres : ∀ (a : Archetype), f.includeMatch a.signature = true →
        (∀ (ai : Nat), w.archetypes[ai]? = some a →
          ∀ id ∈ f.incl.indices, (a.findSlot id).isSome) := by
      intro a hinc ai haval id hid
      have hhas_incl : f.incl.has id = true := (BitSet.mem_indices_iff f.incl id).mp hid
      have hhas : a.signature.has id = true :=
        BitSet.containsAll_has a.signature f.incl hinc id hhas_incl
      rcases (hinv.sig_slots ai a haval id).mp hhas with ⟨slot, hslot, hslotid⟩
      exact List.find?_isSome.mpr ⟨slot, hslot, by simp [hslotid]⟩
    -- rows of one matching archetype are its entities' tuples
    have hrows : ∀ (ai : Nat) (a : Archetype), w.archetypes[ai]? = some a →
        (f.includeMatch a.signature && !(f.excludeMatch a.signature)) = true →
        a.iterRows f.incl.indices = a.entities.map (fun e => w.entityTuple f e) := by
      intro ai a haval hP
      have hinc : f.includeMatch a.signature = true := ((Bool.and_eq_true _ _).mp hP).1
      rw [iterRows_eq a f.incl.indices hids_ne (hpres a hinc ai haval)
        (hinv.col_len ai a haval)]
      apply List.ext_getElem?
      intro n
      by_cases hn : n < a.entities.length
      · rw [List.getElem?_map, List.getElem?_map, List.getElem?_range hn,
          List.getElem?_eq_getElem hn]
        have hent : a.entities[n]? = some a.entities[n] := List.getElem?_eq_getElem hn
        have hro := hinv.row_owner ai a n a.entities[n] haval hent
        have hloc : w.entityLoc a.entities[n] = some (a, n) := by
          unfold World.entityLoc
          rw [hro]
          simp [haval]
        simp only [Option.map_some', World.entityTuple, hloc]
      · rw [List.getElem?_eq_none, List.getElem?_eq_none]
        · rw [List.length_map]
          omega
        · rw [List.length_map, List.length_range]
          omega
    -- the iterator's archetype list
    have hiterlist : (f.iterator w).1 =
        (matchingArchIdx w f).filterMap (fun ai => w.archetypes[ai]?) := by
      unfold Filter.iterator
      rw [if_neg hempty]
      cases hsel : selectCandidates w f.incl.indices with
      | none =>
        have hmempty : matchingArchIdx w f = [] := by
          rcases selectCandidatesGo_none w f.incl.indices none hsel with ⟨hids0, _⟩ | h2
          · exact absurd hids0 hids_ne
          · rcases h2 with ⟨id, hid, hnone⟩
            have hfil := hinv.bycomp_none id hnone
            unfold matchingArchIdx
            rw [List.filter_eq_nil_iff]
            intro ai hai hmb
            have hailt : ai < w.archetypes.length := List.mem_range.mp hai
            rcases Option.isSome_iff_exists.mp (getElem?_isSome_of_lt _ _ hailt) with ⟨a, ha⟩
            rw [ha] at hmb
            have hP : (f.includeMatch a.signature && !(f.excludeMatch a.signature)) = true := hmb
            have hinc : f.includeMatch a.signature = true := ((Bool.and_eq_true _ _).mp hP).1
            have hslot : (a.findSlot id).isSome := hpres a hinc ai ha id hid
            have hhc : archHasComp w ai id = true := by
              unfold archHasComp
              rw [ha]
              rcases Option.isSome_iff_exists.mp hslot with ⟨slot, hslot'⟩
              have hslot'' : a.components.find? (fun s => s.id == id) = some slot := hslot'
              have hpred := List.find?_some hslot''
              exact List.any_eq_true.mpr ⟨slot, List.mem_of_find?_eq_some hslot'', hpred⟩
            have : ai ∈ (List.range w.archetypes.length).filter
                (fun ai => archHasComp w ai id) := by
              rw [List.mem_filter, List.mem_range]
              exact ⟨hailt, hhc⟩
            rw [hfil] at this
            exact absurd this (List.not_mem_nil ai)
        rw [hmempty]
        rfl
      | some cands =>
        rcases selectCandidatesGo_some w f.incl.indices none cands hsel with hbest | h2
        · exact Option.noConfusion hbest
        · rcases h2 with ⟨idstar, hidstar, hfind⟩
          have hcands := hinv.bycomp_some idstar cands hfind
          show (cands.filterMap (fun ai => w.archetypes[ai]?)).filter _ = _
          rw [filter_filterMap, hcands, filterMap_filter_list]
          unfold matchingArchIdx
          rw [filterMap_filter_list]
          apply List.filterMap_congr
          intro ai hai
          have hailt : ai < w.archetypes.length := List.mem_range.mp hai
          rcases Option.isSome_iff_exists.mp (getElem?_isSome_of_lt _ _ hailt) with ⟨a, ha⟩
          rw [ha]
          dsimp only
          by_cases hP : (f.includeMatch a.signature && !(f.excludeMatch a.signature)) = true
          · have hinc : f.includeMatch a.signature = true := ((Bool.and_eq_true _ _).mp hP).1
            have hslot : (a.findSlot idstar).isSome := hpres a hinc ai ha idstar hidstar
            have hhc : archHasComp w ai idstar = true := by
              unfold archHasComp
              rw [ha]
              rcases Option.isSome_iff_exists.mp hslot with ⟨slot, hslot'⟩
              have hslot'' : a.components.find? (fun s => s.id == idstar) = some slot := hslot'
              have hpred := List.find?_some hslot''
              exact List.any_eq_true.mpr ⟨slot, List.mem_of_find?_eq_some hslot'', hpred⟩
            rw [if_pos hhc]
            simp only [Option.some_bind]
          · rw [if_neg hP]
            by_cases hhc : archHasComp w ai idstar = true
            · rw [if_pos hhc]
              simp only [Option.some_bind]
              rw [if_neg hP]
            · rw [if_neg hhc]
    have hq : f.queryRows w = (f.iterator w).1.flatMap
        (fun a => a.iterRows f.incl.indices) := by
      unfold Filter.queryRows drainIterator
      rw [iterator_snd f w]
    have hmpres : ∀ ai ∈ matchingArchIdx w f, (w.archetypes[ai]?).isSome := by
      intro ai hai
      unfold matchingArchIdx at hai
      rw [List.mem_filter, List.mem_range] at hai
      exact getElem?_isSome_of_lt _ _ hai.1
    have harchAt : ∀ (ai : Nat) (a : Archetype), w.archetypes[ai]? = some a →
        archAt w ai = a := by
      intro ai a ha
      unfold archAt
      rw [ha, Option.getD_some]
    have hfm : (matchingArchIdx w f).filterMap (fun ai => w.archetypes[ai]?) =
        (matchingArchIdx w f).map (archAt w) := by
      apply filterMap_eq_map_of_some
      intro ai hai
      rcases Option.isSome_iff_exists.mp (hmpres ai hai) with ⟨a, ha⟩
      rw [ha, harchAt ai a ha]
    have hmb_of_mem : ∀ ai ∈ matchingArchIdx w f, ∀ (a : Archetype),
        w.archetypes[ai]? = some a →
        (f.includeMatch a.signature && !(f.excludeMatch a.signature)) = true := by
      intro ai hai a ha
      unfold matchingArchIdx at hai
      rw [List.mem_filter] at hai
      have := hai.2
      rw [ha] at this
      exact this
    rw [hq, hiterlist, hfm, List.flatMap_map]
    have hflat : (matchingArchIdx w f).flatMap
        (fun ai => (archAt w ai).iterRows f.incl.indices) =
        (matchingArchIdx w f).flatMap
          (fun ai => (archAt w ai).entities.map (fun e => w.entityTuple f e)) := by
      apply List.flatMap_congr
      intro ai hai
      rcases Option.isSome_iff_exists.mp (hmpres ai hai) with ⟨a, ha⟩
      rw [harchAt ai a ha]
      exact hrows ai a ha (hmb_of_mem ai hai a ha)
    rw [hflat, ← List.map_flatMap]
    apply List.Perm.map
    have hEnodup : ((matchingArchIdx w f).flatMap
        (fun ai => (archAt w ai).entities)).Nodup := by
      rw [List.nodup_flatMap]
      constructor
      · intro ai hai
        rcases Option.isSome_iff_exists.mp (hmpres ai hai) with ⟨a, ha⟩
        rw [harchAt ai a ha]
        rw [List.nodup_iff_injective_get]
        intro r r' heq
        have h1 : a.entities[r.1]? = some (a.entities.get r) := by
          rw [List.getElem?_eq_getElem r.2]
          rfl
        have h2 : a.entities[r'.1]? = some (a.entities.get r) := by
          rw [List.getElem?_eq_getElem r'.2, heq]
          rfl
        have hro1 := hinv.row_owner ai a r.1 (a.entities.get r) ha h1
        have hro2 := hinv.row_owner ai a r'.1 (a.entities.get r) ha h2
        rw [hro1] at hro2
        have := congrArg Prod.snd (Option.some.inj hro2)
        exact Fin.ext this
      · have hpw : (matchingArchIdx w f).Pairwise (· < ·) := by
          apply List.Pairwise.sublist (List.filter_sublist _)
          exact List.pairwise_lt_range _
        apply List.Pairwise.imp ?_ hpw
        intro ai aj hlt
        intro e he1 he2
        dsimp only at he1 he2
        cases ha : w.archetypes[ai]? with
        | none =>
          unfold archAt at he1
          rw [ha] at he1
          simp [Option.getD_none] at he1
        | some a =>
          cases ha' : w.archetypes[aj]? with
          | none =>
            unfold archAt at he2
            rw [ha'] at he2
            simp [Option.getD_none] at he2
          | some a' =>
            rw [harchAt ai a ha] at he1
            rw [harchAt aj a' ha'] at he2
            rcases List.mem_iff_getElem?.mp he1 with ⟨r, hr⟩
            rcases List.mem_iff_getElem?.mp he2 with ⟨r', hr'⟩
            have hro1 := hinv.row_owner ai a r e ha hr
            have hro2 := hinv.row_owner aj a' r' e ha' hr'
            rw [hro1] at hro2
            have := congrArg Prod.fst (Option.some.inj hro2)
            exact absurd this (Nat.ne_of_lt hlt)
    have hFnodup : ((List.range w.nextEntityID).filter
        (fun e => w.entityMatches f e)).Nodup :=
      (List.nodup_range _).filter _
    apply (List.perm_ext_iff_of_nodup hEnodup hFnodup).mpr
    intro e
    rw [List.mem_flatMap, List.mem_filter, List.mem_range]
    constructor
    · rintro ⟨ai, hai, he⟩
      rcases Option.isSome_iff_exists.mp (hmpres ai hai) with ⟨a, ha⟩
      rw [harchAt ai a ha] at he
      rcases List.mem_iff_getElem?.mp he with ⟨r, hr⟩
      have hro := hinv.row_owner ai a r e ha hr
      have helt := entity_lt_of_find_some (createdCalls ops) w hinv.toWCore e (ai, r) hro
      refine ⟨?_, ?_⟩
      · rw [hinv.next_eq]
        exact helt
      · unfold World.entityMatches
        have hloc : w.entityLoc e = some (a, r) := by
          unfold World.entityLoc
          rw [hro, Option.some_bind]
          show (w.archetypes[ai]?).map (fun a => (a, r)) = some (a, r)
          rw [ha]
          rfl
        rw [hloc]
        have hne : f.incl.indices.isEmpty = false := by
          rw [Bool.eq_false_iff]
          exact hempty
        rw [hne]
        simp only [Bool.not_false, Bool.true_and]
        exact hmb_of_mem ai hai a ha
    · rintro ⟨helt, hmatch⟩
      unfold World.entityMatches at hmatch
      rw [Bool.and_eq_true] at hmatch
      obtain ⟨-, hm2⟩ := hmatch
      cases hloc : w.entityLoc e with
      | none =>
        rw [hloc] at hm2
        exact absurd hm2 (by simp)
      | some p =>
        rw [hloc] at hm2
        unfold World.entityLoc at hloc
        rcases Option.bind_eq_some.mp hloc with ⟨q, hq1, hq2⟩
        rcases Option.map_eq_some'.mp hq2 with ⟨a0, ha0, hpair⟩
        obtain ⟨a1, ha1, hent⟩ := hinv.ed_loc e q.1 q.2 hq1
        rw [ha0] at ha1
        replace ha1 := Option.some.inj ha1
        subst ha1
        refine ⟨q.1, ?_, ?_⟩
        · unfold matchingArchIdx
          rw [List.mem_filter, List.mem_range]
          refine ⟨?_, ?_⟩
          · by_contra hge
            rw [List.getElem?_eq_none (Nat.le_of_not_lt hge)] at ha0
            exact Option.noConfusion ha0
          · rw [ha0]
            rw [← hpair] at hm2
            exact hm2
        · rw [harchAt q.1 a0 ha0]
          exact (List.mem_iff_getElem?).mpr ⟨q.2, hent⟩

/-- When the cache holds no row set under the filter's key, `Query` returns
the freshly drained iterator rows. -/
theorem query_miss_rows (w : World) (f : Filter)
    (hmiss : (assocFind w.queryCache f.cacheKey).bind
      (fun entry => assocFind entry.cache f.cacheKey) = none) :
    (f.query w).2 = f.queryRows w := by
  simp only [Filter.query]
  rw [hmiss]

/-- C1 (amended): on a reachable world whose query cache holds no row set
under the filter's cache key, `Filter.Query` returns exactly one row per
entity whose archetype signature contains the include-set and does not
intersect the exclude-set — the row list is a permutation of the live
result computed directly from the world's entity data. The cache-miss
hypothesis is necessary: on a hit the stored rows are served even when
entities were created after they were cached. -/
theorem query_returns_live_rows (ops : List Op) (w : World) (f : Filter)
    (h : runOps ops = some w)
    (hmiss : (assocFind w.queryCache f.cacheKey).bind
      (fun entry => assocFind entry.cache f.cacheKey) = none) :
    ((f.query w).2).Perm (w.liveResult f) := by
  rw [query_miss_rows w f hmiss]
  exact queryRows_perm_live ops w f h

/-- Witness for C1's amended theorem: a world reached by one `CreateEntity`
call, queried with a filter whose key is not cached. -/
theorem query_returns_live_rows_witness :
    runOps [Op.create [⟨1, 5⟩]] = some wMiss ∧
      (assocFind wMiss.queryCache filterA.cacheKey).bind
        (fun entry => assocFind entry.cache filterA.cacheKey) = none ∧
      ((filterA.query wMiss).2).Perm (wMiss.liveResult filterA) :=
  ⟨rfl, rfl, query_returns_live_rows [Op.create [⟨1, 5⟩]] wMiss filterA rfl rfl⟩

/-- C10: after `ClearQueryCache`, the next `Query` for any filter recomputes
its rows from the live world state: the result is a permutation of the rows
of the entities currently matching the filter, entities created after an
earlier `Query` for the same filter included. -/
theorem clear_then_query_recomputes (ops : List Op) (w : World) (f : Filter)
    (h : runOps ops = some w) :
    ((f.query w.clearQueryCache).2).Perm (w.liveResult f) := by
  have h2 : runOps (ops ++ [Op.clearCache]) = some w.clearQueryCache := by
    rw [runOps_append, h]
    rfl
  have hmiss : (assocFind w.clearQueryCache.queryCache f.cacheKey).bind
      (fun entry => assocFind entry.cache f.cacheKey) = none := rfl
  rw [query_miss_rows w.clearQueryCache f hmiss]
  exact queryRows_perm_live (ops ++ [Op.clearCache]) w.clearQueryCache f h2

/-- Witness for C10: the stale-cache world (create, query, create) cleared
and re-queried; the fresh result covers both matching entities. -/
theorem clear_then_query_recomputes_witness :
    runOps [Op.create [⟨1, 5⟩], Op.runQuery filterA, Op.create [⟨1, 6⟩]] =
        some wStale ∧
      ((filterA.query wStale.clearQueryCache).2).Perm
        (wStale.liveResult filterA) :=
  ⟨rfl, clear_then_query_recomputes
    [Op.create [⟨1, 5⟩], Op.runQuery filterA, Op.create [⟨1, 6⟩]]
    wStale filterA rfl⟩

end ECS
